import Mathlib

/-!
# Blue-green deploy plugin: route reconciliation and the Deploy call sequence

A shallow embedding of `CfPlugin.Run`, `CfPlugin.Deploy`, `CfPlugin.GetNewAppRoutes`,
`CfPlugin.UnionRouteLists`, `CfPlugin.DefaultCfDomain` and `FQDN` of `main.go`.

* Routes are values with decidable equality; a Go map used as a set is the list of its
  keys without repetition, and ranging over it visits the keys in an order the language
  leaves open, so every function that ranges over a map takes the visiting order as an
  argument (`MapIteration`).
* The `BlueGreenDeployer` interface is the environment of `Deploy`: the two calls whose
  results `Deploy` reads are fields of a record, and every call `Deploy` issues is
  recorded, in order, in a list of `Call`s.
* `DefaultCfDomain` returns `none` where the Go code panics on an index out of range, and
  `Run` records how the invocation ends: it returns, exits with a status, or panics.
-/

namespace BlueGreen

/-! ## Data model -/

/-- Modelled from the spec: the declaration of `plugin_models.GetApp_DomainFields` is not
part of the source; the only field `main.go` reads or writes is `Name`. -/
structure GetApp_DomainFields where
  Name : String
deriving DecidableEq, Repr

/-- Modelled from the spec: the declaration of `plugin_models.GetApp_RouteSummary` is not
part of the source; a route is a host and a domain (the fields `main.go` uses), and two
routes are equal iff both are equal. -/
structure GetApp_RouteSummary where
  Host : String
  Domain : GetApp_DomainFields
deriving DecidableEq, Repr

/-- Short name for the route type. -/
abbrev Route := GetApp_RouteSummary

/-- Modelled from the spec: `Args` (the parsed command line) is declared outside
`main.go`; `Deploy` reads these three fields. -/
structure Args where
  AppName : String
  SmokeTestPath : String
  ManifestPath : String
deriving DecidableEq, Repr

/-- Modelled from the spec: the application entry of a manifest, of which only `Routes`
is read; `none` is Go's nil slice, `some []` an empty non-nil slice. -/
structure AppParams where
  Routes : Option (List Route)
deriving DecidableEq, Repr

/-- Modelled from the spec: the manifest repository, taken as the lookup it answers for
an application name and a default domain (`none` is the nil `*AppParams`). -/
abbrev Repository := String → String → Option AppParams

/-- The finder `GetNewAppRoutes` builds to query the manifest. -/
structure ManifestAppFinder where
  AppName : String
  Repo : Repository
  DefaultDomain : String

/-- Modelled from the spec: `ManifestAppFinder.AppParams` is not part of the source; it
returns the entry the repository declares for the application, or nil. -/
def ManifestAppFinder.AppParams (f : ManifestAppFinder) : Option AppParams :=
  f.Repo f.AppName f.DefaultDomain

/-! ## Go maps used as sets -/

/-- The statement `routesSet[route] = struct{}{}` on the list of keys of the map. -/
def mapInsert (keys : List Route) (route : Route) : List Route :=
  if route ∈ keys then keys else keys ++ [route]

/-- The order in which `for route := range routesSet` visits the keys: some
rearrangement of the keys, not fixed by the language. -/
structure MapIteration where
  range : List Route → List Route
  perm : ∀ keys, (range keys).Perm keys

/-- Visit the keys in the order they were first inserted. -/
def MapIteration.insertionOrder : MapIteration := ⟨fun keys => keys, fun _ => List.Perm.refl _⟩

/-- Visit the keys in the reverse of the order they were first inserted. -/
def MapIteration.reversed : MapIteration := ⟨List.reverse, fun keys => List.reverse_perm keys⟩

/-! ## `main.go` -/

/-- The function `FQDN`: host and domain name joined by a dot. -/
def FQDN (r : Route) : String :=
  r.Host ++ "." ++ r.Domain.Name

/-- The method `CfPlugin.UnionRouteLists`: the keys of a map into which the routes of
both lists are inserted, in the order the map is ranged over. -/
def UnionRouteLists (it : MapIteration) (listA listB : List Route) : List Route :=
  let duplicateList := listA ++ listB
  let routesSet := duplicateList.foldl mapInsert []
  let uniqueRoutes := it.range routesSet
  uniqueRoutes

/-- The method `CfPlugin.GetNewAppRoutes`: the union of the manifest routes and the live
routes, or the default route when that union is empty. -/
def GetNewAppRoutes (it : MapIteration) (appName defaultCfDomain : String) (repo : Repository)
    (liveAppRoutes : List Route) : List Route :=
  let f : ManifestAppFinder := { AppName := appName, Repo := repo, DefaultDomain := defaultCfDomain }
  let newAppRoutes : List Route :=
    match f.AppParams with
    | some appParams =>
      match appParams.Routes with
      | some routes => routes
      | none => []
    | none => []
  let uniqueRoutes := UnionRouteLists it newAppRoutes liveAppRoutes
  if uniqueRoutes.length = 0 then
    uniqueRoutes ++ [{ Host := appName, Domain := { Name := defaultCfDomain } }]
  else
    uniqueRoutes

/-- The calls of the `BlueGreenDeployer` interface that `Deploy` issues. -/
inductive Call where
  | DeleteAllAppsExceptLiveApp (appName : String)
  | LiveApp (appName : String)
  | PushNewApp (appName : String) (route : Route) (manifestPath : String)
  | RunSmokeTests (script : String) (appFQDN : String)
  | MapRoutesToApp (appName : String) (routes : List Route)
  | UnmapRoutesFromApp (appName : String) (routes : List Route)
  | RenameApp (app : String) (newName : String)
deriving DecidableEq, Repr

/-- The `BlueGreenDeployer` the plugin holds, as far as `Deploy` reads it: the answers
of the two calls that return a value. All other calls return nothing; a run is a run in
which every call returns. -/
structure BlueGreenDeployer where
  LiveApp : String → String × List Route
  RunSmokeTests : String → String → Bool

/-- The method `CfPlugin.Deploy`: the calls issued on the deployer, in order, and the returned
boolean. -/
def Deploy (it : MapIteration) (d : BlueGreenDeployer) (defaultCfDomain : String)
    (repo : Repository) (args : Args) : List Call × Bool :=
  let appName := args.AppName
  let t0 := [Call.DeleteAllAppsExceptLiveApp appName]
  let liveAppName := (d.LiveApp appName).1
  let liveAppRoutes := (d.LiveApp appName).2
  let t1 := t0 ++ [Call.LiveApp appName]
  let newAppName := appName ++ "-new"
  let tempRoute : Route := { Host := newAppName, Domain := { Name := defaultCfDomain } }
  let t2 := t1 ++ [Call.PushNewApp newAppName tempRoute args.ManifestPath]
  let smokeTestScript := args.SmokeTestPath
  let promoteNewApp :=
    if smokeTestScript ≠ "" then d.RunSmokeTests smokeTestScript (FQDN tempRoute) else true
  let t3 :=
    if smokeTestScript ≠ "" then t2 ++ [Call.RunSmokeTests smokeTestScript (FQDN tempRoute)] else t2
  let newAppRoutes := GetNewAppRoutes it appName defaultCfDomain repo liveAppRoutes
  let t4 := t3 ++ [Call.UnmapRoutesFromApp newAppName [tempRoute]]
  if promoteNewApp then
    if liveAppName ≠ "" then
      (t4 ++ [Call.MapRoutesToApp newAppName newAppRoutes,
              Call.RenameApp liveAppName (appName ++ "-old"),
              Call.RenameApp newAppName appName,
              Call.UnmapRoutesFromApp (appName ++ "-old") liveAppRoutes], true)
    else
      (t4 ++ [Call.MapRoutesToApp newAppName newAppRoutes,
              Call.RenameApp newAppName appName], true)
  else
    (t4 ++ [Call.RenameApp newAppName (appName ++ "-failed")], false)

/-! ## `main.go`: `DefaultCfDomain` and `Run` -/

/-- The field `Entity` of one element of `Resources` in the shared-domains response. -/
structure SharedDomainEntity where
  Name : String
deriving DecidableEq, Repr

/-- One element of `Resources` in the shared-domains response. -/
structure SharedDomainResource where
  Entity : SharedDomainEntity
deriving DecidableEq, Repr

/-- The anonymous struct `DefaultCfDomain` decodes the shared-domains response into. -/
structure SharedDomainsResponse where
  Resources : List SharedDomainResource
deriving DecidableEq, Repr

/-- Modelled from the spec: the `plugin.CliConnection` interface is declared outside the
source; the one method `DefaultCfDomain` calls answers with the output lines or with an
error. -/
structure CliConnection where
  CliCommandWithoutTerminalOutput : List String → Except String (List String)

/-- The method `CfPlugin.DefaultCfDomain`, with `json.Unmarshal` into the response struct
taken as the argument `unmarshal`. The result is `none` when the index expression
`response.Resources[0]` is out of range (a run-time panic), and otherwise the returned
pair of the domain and the error (`none` for a nil error). -/
def DefaultCfDomain (unmarshal : String → Except String SharedDomainsResponse)
    (connection : CliConnection) : Option (String × Option String) :=
  match connection.CliCommandWithoutTerminalOutput ["curl", "/v2/shared_domains"] with
  | .error err => some ("", some err)
  | .ok res =>
    let json_string := String.intercalate "\n" res
    match unmarshal json_string with
    | .error err => some ("", some err)
    | .ok response =>
      match response.Resources with
      | [] => none
      | first :: _ => some (first.Entity.Name, none)

/-- How an invocation of `Run` ends: it returns, the process exits with a status
(`os.Exit`), or the process dies of a run-time panic. -/
inductive Termination where
  | returned
  | exited (status : Nat)
  | panicked
deriving DecidableEq, Repr

/-- What an invocation of `Run` does: whether `Deployer.Setup` was called, the deployer
calls issued by `Deploy`, the lines printed, and how the invocation ends. -/
structure RunResult where
  setup : Bool
  calls : List Call
  output : List String
  termination : Termination
deriving DecidableEq, Repr

/-- The method `CfPlugin.Run`. The argument parser `NewArgs` and the manifest repository
(`manifest.DiskRepository{}`) are declared outside `main.go` and are arguments here. -/
def Run (it : MapIteration) (NewArgs : List String → Args)
    (unmarshal : String → Except String SharedDomainsResponse) (repo : Repository)
    (d : BlueGreenDeployer) (cliConnection : CliConnection) (args : List String) : RunResult :=
  if args.length > 0 ∧ args.head? = some "CLI-MESSAGE-UNINSTALL" then
    { setup := false, calls := [], output := [], termination := Termination.returned }
  else
    let argsStruct := NewArgs args
    match DefaultCfDomain unmarshal cliConnection with
    | none =>
      { setup := false, calls := [], output := [], termination := Termination.panicked }
    | some (_, some _) =>
      { setup := false, calls := [], output := ["Failed to get default shared domain"],
        termination := Termination.exited 1 }
    | some (defaultCfDomain, none) =>
      if argsStruct.AppName = "" then
        { setup := true, calls := [], output := ["App name must be provided"],
          termination := Termination.exited 1 }
      else
        let deployed := Deploy it d defaultCfDomain repo argsStruct
        if ¬ deployed.2 then
          { setup := true, calls := deployed.1, output := ["Smoke tests failed"],
            termination := Termination.exited 1 }
        else
          { setup := true, calls := deployed.1, output := [],
            termination := Termination.returned }

/-! ## Vocabulary for statements about call sequences -/

/-- The calls of a sequence that come after the first occurrence of `c` (none when `c`
does not occur). -/
def callsAfter (c : Call) : List Call → List Call
  | [] => []
  | x :: xs => if x = c then xs else callsAfter c xs

/-- Whether a call is a `RenameApp`. -/
def Call.isRenameApp : Call → Bool
  | .RenameApp _ _ => true
  | _ => false

/-- Whether a call is a `MapRoutesToApp`. -/
def Call.isMapRoutesToApp : Call → Bool
  | .MapRoutesToApp _ _ => true
  | _ => false

/-- Whether a call is an `UnmapRoutesFromApp`. -/
def Call.isUnmapRoutesFromApp : Call → Bool
  | .UnmapRoutesFromApp _ _ => true
  | _ => false

/-- The application a renaming, mapping or unmapping call acts on. -/
def Call.target : Call → Option String
  | .MapRoutesToApp appName _ => some appName
  | .UnmapRoutesFromApp appName _ => some appName
  | .RenameApp app _ => some app
  | _ => none

/-- The temporary validation route `Deploy` builds. -/
def tempRouteOf (appName defaultCfDomain : String) : Route :=
  { Host := appName ++ "-new", Domain := { Name := defaultCfDomain } }

/-- The default route `GetNewAppRoutes` falls back to. -/
def defaultRouteOf (appName defaultCfDomain : String) : Route :=
  { Host := appName, Domain := { Name := defaultCfDomain } }

/-- The routes the manifest declares for an application, in the words of the design
(`manifestRoutes`): empty when the manifest or the entry is absent. -/
def manifestRoutes (repo : Repository) (appName defaultCfDomain : String) : List Route :=
  match repo appName defaultCfDomain with
  | some appParams => appParams.Routes.getD []
  | none => []

/-- The calls `Deploy` issues before it unmaps the temporary route: cleaning, the query
for the live application, the push, and the smoke tests when a script is given. -/
def preludeCalls (defaultCfDomain : String) (args : Args) : List Call :=
  [Call.DeleteAllAppsExceptLiveApp args.AppName, Call.LiveApp args.AppName,
    Call.PushNewApp (args.AppName ++ "-new") (tempRouteOf args.AppName defaultCfDomain)
      args.ManifestPath] ++
  (if args.SmokeTestPath ≠ "" then
    [Call.RunSmokeTests args.SmokeTestPath (FQDN (tempRouteOf args.AppName defaultCfDomain))]
   else [])

/-- The call that unmaps the temporary route from the candidate. -/
def unmapTemp (defaultCfDomain : String) (args : Args) : Call :=
  Call.UnmapRoutesFromApp (args.AppName ++ "-new") [tempRouteOf args.AppName defaultCfDomain]

/-- Whether the smoke tests let the candidate through: no script, or the script passed. -/
def promotes (d : BlueGreenDeployer) (defaultCfDomain : String) (args : Args) : Prop :=
  args.SmokeTestPath = "" ∨
    d.RunSmokeTests args.SmokeTestPath (FQDN (tempRouteOf args.AppName defaultCfDomain)) = true

/-- Whether the smoke tests ran and failed. -/
def smokeFailed (d : BlueGreenDeployer) (defaultCfDomain : String) (args : Args) : Prop :=
  args.SmokeTestPath ≠ "" ∧
    d.RunSmokeTests args.SmokeTestPath (FQDN (tempRouteOf args.AppName defaultCfDomain)) = false

/-! ## Platform state -/

/-- Modelled from the spec: the platform behind the deployer, which is not part of the
source. A state records, for each application name, whether an application of that name
exists and which routes it holds. -/
abbrev Platform := String → Option (List Route)

/-- The routes an application holds (none when it does not exist). -/
def Platform.routesOf (p : Platform) (app : String) : List Route :=
  (p app).getD []

/-- Modelled from the spec: the effect of one deployer call on the platform state.
Cleaning deletes the stale `-new`, `-old` and `-failed` applications; a push creates the
application with the single temporary route; mapping adds routes, unmapping removes them
(unmapping a route that is not mapped is a no-op); renaming moves an application and its
routes to the new name. -/
def Platform.apply (p : Platform) : Call → Platform
  | .DeleteAllAppsExceptLiveApp appName => fun n =>
      if n = appName ++ "-new" ∨ n = appName ++ "-old" ∨ n = appName ++ "-failed" then none
      else p n
  | .LiveApp _ => p
  | .PushNewApp appName route _ => fun n => if n = appName then some [route] else p n
  | .RunSmokeTests _ _ => p
  | .MapRoutesToApp appName routes => fun n =>
      if n = appName then (p n).map (fun held => held ++ routes) else p n
  | .UnmapRoutesFromApp appName routes => fun n =>
      if n = appName then (p n).map (fun held => held.filter (fun r => r ∉ routes)) else p n
  | .RenameApp app newName =>
      match p app with
      | none => p
      | some held => fun n => if n = newName then some held else if n = app then none else p n

/-- The platform state after a sequence of calls. -/
def Platform.run (p : Platform) (calls : List Call) : Platform :=
  calls.foldl Platform.apply p

/-- Modelled from the spec: the deployer over a platform state. `LiveApp` answers with
the application literally named `appName` and its routes, or with the empty name when
there is none; the outcome of the smoke tests is given. -/
def platformDeployer (p : Platform) (smoke : String → String → Bool) : BlueGreenDeployer where
  LiveApp := fun appName =>
    match p appName with
    | some held => (appName, held)
    | none => ("", [])
  RunSmokeTests := smoke

/-- No route is held both by the live application and by the candidate, when both
exist. -/
def Platform.disjointAt (p : Platform) (appName : String) : Prop :=
  (p appName).isSome → (p (appName ++ "-new")).isSome →
    ∀ r, ¬ (r ∈ p.routesOf appName ∧ r ∈ p.routesOf (appName ++ "-new"))

/-- What holds of a platform state `s` reached from `p0` as long as nothing was mapped
onto the candidate: the live application is as in `p0`, and the candidate does not exist
or holds at most the temporary route. -/
def candidateFresh (p0 : Platform) (appName defaultCfDomain : String) (s : Platform) : Prop :=
  s appName = p0 appName ∧
    (s (appName ++ "-new") = none ∨
      s (appName ++ "-new") = some [tempRouteOf appName defaultCfDomain] ∨
      s (appName ++ "-new") = some [])

/-- The calls of a run that map nothing and rename neither the live application nor the
candidate to the public name. -/
def quietCall (appName defaultCfDomain : String) (c : Call) : Prop :=
  c = Call.DeleteAllAppsExceptLiveApp appName ∨ c = Call.LiveApp appName ∨
  (∃ manifestPath,
    c = Call.PushNewApp (appName ++ "-new") (tempRouteOf appName defaultCfDomain) manifestPath) ∨
  (∃ script appFQDN, c = Call.RunSmokeTests script appFQDN) ∨
  c = Call.UnmapRoutesFromApp (appName ++ "-new") [tempRouteOf appName defaultCfDomain] ∨
  c = Call.RenameApp (appName ++ "-new") (appName ++ "-failed")

/-! ## Sample inputs -/

/-- The route `a.example.com`. -/
def routeA : Route := { Host := "a", Domain := { Name := "example.com" } }

/-- The route `b.example.com`. -/
def routeB : Route := { Host := "b", Domain := { Name := "example.com" } }

/-- A manifest repository that declares no application. -/
def emptyRepo : Repository := fun _ _ => none

/-- A manifest repository that declares route `b.example.com` for every application. -/
def repoB : Repository := fun _ _ => some { Routes := some [routeB] }

/-- A deployer that finds the live application `app` with route `a.example.com` and
whose smoke tests answer `ok`. -/
def liveDeployer (ok : Bool) : BlueGreenDeployer where
  LiveApp := fun appName => (appName, [routeA])
  RunSmokeTests := fun _ _ => ok

/-- A deployer that finds no live application and whose smoke tests answer `ok`. -/
def firstDeployer (ok : Bool) : BlueGreenDeployer where
  LiveApp := fun _ => ("", [])
  RunSmokeTests := fun _ _ => ok

/-- A deployer whose `LiveApp` answers with the name of the candidate itself, holding
`a.example.com`, and whose smoke tests fail. -/
def candidateDeployer : BlueGreenDeployer where
  LiveApp := fun appName => (appName ++ "-new", [routeA])
  RunSmokeTests := fun _ _ => false

/-- A platform on which only `app` exists, holding `a.example.com`. -/
def livePlatform : Platform := fun n => if n = "app" then some [routeA] else none

/-- Arguments without a smoke test script. -/
def argsPlain : Args := { AppName := "app", SmokeTestPath := "", ManifestPath := "" }

/-- Arguments with a smoke test script. -/
def argsSmoke : Args := { AppName := "app", SmokeTestPath := "./smoke.sh", ManifestPath := "" }

/-- Whether a call is a `RunSmokeTests`. -/
def Call.isRunSmokeTests : Call → Bool
  | .RunSmokeTests _ _ => true
  | _ => false

/-- The calls that leave the application named `appName` as it is: those of a run up to
and including the mapping of routes onto the candidate, and the renaming of the candidate
to `-failed`. -/
def keepsLive (appName defaultCfDomain : String) (c : Call) : Prop :=
  quietCall appName defaultCfDomain c ∨ ∃ routes, c = Call.MapRoutesToApp (appName ++ "-new") routes

/-- A manifest repository that declares the temporary route of `app` as a route. -/
def repoTemp : Repository := fun _ _ =>
  some { Routes := some [{ Host := "app-new", Domain := { Name := "example.com" } }] }

/-- A parser that takes the application name from the second argument. -/
def sampleNewArgs (args : List String) : Args :=
  { AppName := (args.drop 1).headD "", SmokeTestPath := "", ManifestPath := "" }

/-- A decoder that answers with one shared domain, `example.com`, for the text `one`,
with no shared domain for the text `none`, and with an error otherwise. -/
def sampleUnmarshal (json_string : String) : Except String SharedDomainsResponse :=
  if json_string = "one" then .ok { Resources := [{ Entity := { Name := "example.com" } }] }
  else if json_string = "none" then .ok { Resources := [] }
  else .error "invalid character"

/-- A connection whose shared-domains answer is the given line. -/
def sampleConnection (line : String) : CliConnection where
  CliCommandWithoutTerminalOutput := fun _ => .ok [line]

/-- A connection that fails. -/
def brokenConnection : CliConnection where
  CliCommandWithoutTerminalOutput := fun _ => .error "connection refused"

/-! ## Strings -/

theorem append_ne_self (s t : String) (ht : 0 < t.length) : s ++ t ≠ s := by
  intro h
  have hl := congrArg String.length h
  rw [String.length_append] at hl
  omega

theorem append_ne_empty (s t : String) (ht : 0 < t.length) : s ++ t ≠ "" := by
  intro h
  have hl := congrArg String.length h
  rw [String.length_append] at hl
  have h0 : ("" : String).length = 0 := rfl
  omega

theorem append_left_cancel (s t u : String) (h : s ++ t = s ++ u) : t = u := by
  have hd := congrArg String.data h
  rw [String.data_append, String.data_append] at hd
  exact String.ext (List.append_cancel_left hd)

theorem new_ne_old (s : String) : s ++ "-new" ≠ s ++ "-old" := fun h =>
  absurd (append_left_cancel s _ _ h) (by decide)

theorem new_ne_failed (s : String) : s ++ "-new" ≠ s ++ "-failed" := fun h =>
  absurd (append_left_cancel s _ _ h) (by decide)

theorem new_ne_self (s : String) : s ++ "-new" ≠ s := append_ne_self s _ (by decide)

theorem failed_ne_self (s : String) : s ++ "-failed" ≠ s := append_ne_self s _ (by decide)

theorem old_ne_self (s : String) : s ++ "-old" ≠ s := append_ne_self s _ (by decide)

theorem new_ne_empty (s : String) : s ++ "-new" ≠ "" := append_ne_empty s _ (by decide)

/-! ## The map as a set -/

theorem mem_mapInsert (keys : List Route) (route r : Route) :
    r ∈ mapInsert keys route ↔ r ∈ keys ∨ r = route := by
  unfold mapInsert
  split
  · constructor
    · intro h; exact Or.inl h
    · rintro (h | h)
      · exact h
      · subst h; assumption
  · simp

theorem nodup_mapInsert (keys : List Route) (route : Route) (h : keys.Nodup) :
    (mapInsert keys route).Nodup := by
  unfold mapInsert
  split
  · exact h
  · rename_i hn
    exact List.Nodup.append h (List.nodup_singleton route)
      (by
        intro x hx hx1
        rw [List.mem_singleton] at hx1
        subst hx1
        exact hn hx)

theorem mem_foldl_mapInsert (l : List Route) :
    ∀ (acc : List Route) (r : Route), r ∈ l.foldl mapInsert acc ↔ r ∈ acc ∨ r ∈ l := by
  induction l with
  | nil => intro acc r; simp
  | cons x xs ih =>
    intro acc r
    rw [List.foldl_cons, ih, mem_mapInsert, List.mem_cons]
    tauto

theorem nodup_foldl_mapInsert (l : List Route) :
    ∀ acc : List Route, acc.Nodup → (l.foldl mapInsert acc).Nodup := by
  induction l with
  | nil => intro acc h; exact h
  | cons x xs ih =>
    intro acc h
    rw [List.foldl_cons]
    exact ih _ (nodup_mapInsert acc x h)

theorem mem_union (it : MapIteration) (A B : List Route) (r : Route) :
    r ∈ UnionRouteLists it A B ↔ r ∈ A ∨ r ∈ B := by
  unfold UnionRouteLists
  simp only
  rw [(it.perm _).mem_iff, mem_foldl_mapInsert, List.mem_append]
  simp

theorem nodup_union (it : MapIteration) (A B : List Route) :
    (UnionRouteLists it A B).Nodup := by
  unfold UnionRouteLists
  simp only
  rw [(it.perm _).nodup_iff]
  exact nodup_foldl_mapInsert _ [] List.nodup_nil

theorem union_eq_nil_iff (it : MapIteration) (A B : List Route) :
    UnionRouteLists it A B = [] ↔ A = [] ∧ B = [] := by
  constructor
  · intro h
    have hm := mem_union it A B
    rw [h] at hm
    constructor
    · apply List.eq_nil_iff_forall_not_mem.mpr
      intro r hr
      exact absurd ((hm r).mpr (Or.inl hr)) (List.not_mem_nil r)
    · apply List.eq_nil_iff_forall_not_mem.mpr
      intro r hr
      exact absurd ((hm r).mpr (Or.inr hr)) (List.not_mem_nil r)
  · rintro ⟨rfl, rfl⟩
    apply List.eq_nil_iff_forall_not_mem.mpr
    intro r hr
    rw [mem_union] at hr
    simp at hr

/-- GetNewAppRoutes in terms of the manifest routes. -/
theorem getNewAppRoutes_eq (it : MapIteration) (appName defaultCfDomain : String)
    (repo : Repository) (liveAppRoutes : List Route) :
    GetNewAppRoutes it appName defaultCfDomain repo liveAppRoutes =
      if UnionRouteLists it (manifestRoutes repo appName defaultCfDomain) liveAppRoutes = [] then
        [defaultRouteOf appName defaultCfDomain]
      else UnionRouteLists it (manifestRoutes repo appName defaultCfDomain) liveAppRoutes := by
  have hm : (match (ManifestAppFinder.AppParams
        { AppName := appName, Repo := repo, DefaultDomain := defaultCfDomain }) with
      | some appParams =>
        (match appParams.Routes with
        | some routes => routes
        | none => [])
      | none => ([] : List Route)) = manifestRoutes repo appName defaultCfDomain := by
    unfold manifestRoutes ManifestAppFinder.AppParams
    simp only
    cases repo appName defaultCfDomain with
    | none => rfl
    | some ap => cases hr : ap.Routes <;> simp [hr]
  unfold GetNewAppRoutes
  simp only [hm, List.length_eq_zero, defaultRouteOf]
  split
  · rename_i h; rw [h]; rfl
  · rfl

theorem nodup_getNewAppRoutes (it : MapIteration) (appName defaultCfDomain : String)
    (repo : Repository) (liveAppRoutes : List Route) :
    (GetNewAppRoutes it appName defaultCfDomain repo liveAppRoutes).Nodup := by
  rw [getNewAppRoutes_eq]
  split
  · exact List.nodup_singleton _
  · exact nodup_union _ _ _

/-! ## The three shapes of a run -/

theorem not_promotes_iff (d : BlueGreenDeployer) (dom : String) (args : Args) :
    ¬ promotes d dom args ↔ smokeFailed d dom args := by
  unfold promotes smokeFailed
  constructor
  · intro h
    push_neg at h
    exact ⟨h.1, by simpa using h.2⟩
  · rintro ⟨h1, h2⟩ (h | h)
    · exact h1 h
    · rw [h2] at h; exact Bool.noConfusion h

theorem deploy_promote_live (it : MapIteration) (d : BlueGreenDeployer) (dom : String)
    (repo : Repository) (args : Args) (hp : promotes d dom args)
    (hl : (d.LiveApp args.AppName).1 ≠ "") :
    Deploy it d dom repo args =
      (preludeCalls dom args ++ unmapTemp dom args ::
        [Call.MapRoutesToApp (args.AppName ++ "-new")
            (GetNewAppRoutes it args.AppName dom repo (d.LiveApp args.AppName).2),
          Call.RenameApp (d.LiveApp args.AppName).1 (args.AppName ++ "-old"),
          Call.RenameApp (args.AppName ++ "-new") args.AppName,
          Call.UnmapRoutesFromApp (args.AppName ++ "-old") (d.LiveApp args.AppName).2], true) := by
  unfold promotes at hp
  unfold Deploy preludeCalls unmapTemp tempRouteOf
  by_cases hs : args.SmokeTestPath = ""
  · simp [hs, hl]
  · rcases hp with hp | hp
    · exact absurd hp hs
    · unfold tempRouteOf at hp
      simp [hs, hl, hp]

theorem deploy_promote_first (it : MapIteration) (d : BlueGreenDeployer) (dom : String)
    (repo : Repository) (args : Args) (hp : promotes d dom args)
    (hl : (d.LiveApp args.AppName).1 = "") :
    Deploy it d dom repo args =
      (preludeCalls dom args ++ unmapTemp dom args ::
        [Call.MapRoutesToApp (args.AppName ++ "-new")
            (GetNewAppRoutes it args.AppName dom repo (d.LiveApp args.AppName).2),
          Call.RenameApp (args.AppName ++ "-new") args.AppName], true) := by
  unfold promotes at hp
  unfold Deploy preludeCalls unmapTemp tempRouteOf
  by_cases hs : args.SmokeTestPath = ""
  · simp [hs, hl]
  · rcases hp with hp | hp
    · exact absurd hp hs
    · unfold tempRouteOf at hp
      simp [hs, hl, hp]

theorem deploy_rollback (it : MapIteration) (d : BlueGreenDeployer) (dom : String)
    (repo : Repository) (args : Args) (hf : smokeFailed d dom args) :
    Deploy it d dom repo args =
      (preludeCalls dom args ++ unmapTemp dom args ::
        [Call.RenameApp (args.AppName ++ "-new") (args.AppName ++ "-failed")], false) := by
  obtain ⟨hs, hr⟩ := hf
  unfold tempRouteOf at hr
  unfold Deploy preludeCalls unmapTemp tempRouteOf
  simp [hs, hr]

theorem prelude_no_unmap (dom : String) (args : Args) :
    ∀ c ∈ preludeCalls dom args, c.isUnmapRoutesFromApp = false ∧ c.isRenameApp = false ∧
      c.isMapRoutesToApp = false := by
  intro c hc
  unfold preludeCalls at hc
  by_cases hs : args.SmokeTestPath = ""
  · simp [hs] at hc
    rcases hc with rfl | rfl | rfl <;> simp [Call.isUnmapRoutesFromApp, Call.isRenameApp,
      Call.isMapRoutesToApp]
  · simp [hs] at hc
    rcases hc with rfl | rfl | rfl | rfl <;> simp [Call.isUnmapRoutesFromApp, Call.isRenameApp,
      Call.isMapRoutesToApp]

theorem unmapTemp_not_mem_prelude (dom : String) (args : Args) :
    unmapTemp dom args ∉ preludeCalls dom args := by
  intro h
  have := (prelude_no_unmap dom args _ h).1
  simp [unmapTemp, Call.isUnmapRoutesFromApp] at this

theorem callsAfter_append (c : Call) (pre post : List Call) (h : c ∉ pre) :
    callsAfter c (pre ++ c :: post) = post := by
  induction pre with
  | nil => simp [callsAfter]
  | cons x xs ih =>
    have hx : x ≠ c := fun e => h (by simp [e])
    have hxs : c ∉ xs := fun e => h (by simp [e])
    simp [callsAfter, hx, ih hxs]

/-! ## The call sequence of `Deploy` -/

/-- C1: in a run that promotes and in which `LiveApp` returned a non-empty name, the calls
after the unmapping of the temporary route are exactly: map the reconciled routes onto the
candidate, rename the live application to `-old`, rename the candidate to the public name,
unmap the live routes from `-old`. -/
theorem promote_live_calls_after_unmap (it : MapIteration) (d : BlueGreenDeployer)
    (defaultCfDomain : String) (repo : Repository) (args : Args)
    (hp : promotes d defaultCfDomain args) (hl : (d.LiveApp args.AppName).1 ≠ "") :
    callsAfter
        (Call.UnmapRoutesFromApp (args.AppName ++ "-new")
          [{ Host := args.AppName ++ "-new", Domain := { Name := defaultCfDomain } }])
        (Deploy it d defaultCfDomain repo args).1 =
      [Call.MapRoutesToApp (args.AppName ++ "-new")
          (GetNewAppRoutes it args.AppName defaultCfDomain repo (d.LiveApp args.AppName).2),
        Call.RenameApp (d.LiveApp args.AppName).1 (args.AppName ++ "-old"),
        Call.RenameApp (args.AppName ++ "-new") args.AppName,
        Call.UnmapRoutesFromApp (args.AppName ++ "-old") (d.LiveApp args.AppName).2] := by
  rw [deploy_promote_live it d defaultCfDomain repo args hp hl]
  exact callsAfter_append _ _ _ (unmapTemp_not_mem_prelude defaultCfDomain args)

theorem promote_live_calls_after_unmap_witness :
    promotes (liveDeployer true) "example.com" argsSmoke ∧
    ((liveDeployer true).LiveApp argsSmoke.AppName).1 ≠ "" ∧
    callsAfter
        (Call.UnmapRoutesFromApp "app-new"
          [{ Host := "app-new", Domain := { Name := "example.com" } }])
        (Deploy MapIteration.insertionOrder (liveDeployer true) "example.com" repoB argsSmoke).1 =
      [Call.MapRoutesToApp "app-new" [routeB, routeA],
        Call.RenameApp "app" "app-old",
        Call.RenameApp "app-new" "app",
        Call.UnmapRoutesFromApp "app-old" [routeA]] :=
  ⟨Or.inr rfl, by decide,
    promote_live_calls_after_unmap MapIteration.insertionOrder (liveDeployer true) "example.com"
      repoB argsSmoke (Or.inr rfl) (by decide)⟩

/-- C2, counterexample: with a deployer whose `LiveApp` answers with the name `app-new`,
the run in which the smoke tests fail unmaps from and renames the very application
`LiveApp` named, so a call that acts on `liveAppName` exists. -/
theorem rollback_acts_on_named_live_app :
    smokeFailed candidateDeployer "example.com" argsSmoke ∧
    ¬ (∀ c ∈ (Deploy MapIteration.insertionOrder candidateDeployer "example.com" repoB
          argsSmoke).1,
        c.isRenameApp = true ∨ c.isUnmapRoutesFromApp = true →
          c.target ≠ some (candidateDeployer.LiveApp argsSmoke.AppName).1) := by
  refine ⟨⟨by decide, rfl⟩, ?_⟩
  intro h
  exact h (Call.RenameApp "app-new" "app-failed") (by decide) (Or.inl rfl) (by decide)

/-- C2, amended: in a run in which the smoke tests fail, no `MapRoutesToApp` call is made,
no rename or unmap acts on `appName` or on `appName-old`, nor on the application `LiveApp`
named unless that name is `appName-new`, the only rename is of the candidate to `-failed`,
and the only unmap is of the temporary route from the candidate. -/
theorem rollback_leaves_live_app (it : MapIteration) (d : BlueGreenDeployer)
    (defaultCfDomain : String) (repo : Repository) (args : Args)
    (hf : smokeFailed d defaultCfDomain args) :
    (∀ c ∈ (Deploy it d defaultCfDomain repo args).1, c.isMapRoutesToApp = false) ∧
    (∀ c ∈ (Deploy it d defaultCfDomain repo args).1,
      c.isRenameApp = true ∨ c.isUnmapRoutesFromApp = true →
        c.target ≠ some args.AppName ∧ c.target ≠ some (args.AppName ++ "-old") ∧
          ((d.LiveApp args.AppName).1 ≠ args.AppName ++ "-new" →
            c.target ≠ some (d.LiveApp args.AppName).1)) ∧
    (Deploy it d defaultCfDomain repo args).1.filter Call.isRenameApp =
      [Call.RenameApp (args.AppName ++ "-new") (args.AppName ++ "-failed")] ∧
    (Deploy it d defaultCfDomain repo args).1.filter Call.isUnmapRoutesFromApp =
      [Call.UnmapRoutesFromApp (args.AppName ++ "-new")
        [{ Host := args.AppName ++ "-new", Domain := { Name := defaultCfDomain } }]] := by
  rw [deploy_rollback it d defaultCfDomain repo args hf]
  have hpre := prelude_no_unmap defaultCfDomain args
  have hfr : (preludeCalls defaultCfDomain args).filter Call.isRenameApp = [] :=
    List.filter_eq_nil_iff.mpr (fun c hc => by simp [(hpre c hc).2.1])
  have hfu : (preludeCalls defaultCfDomain args).filter Call.isUnmapRoutesFromApp = [] :=
    List.filter_eq_nil_iff.mpr (fun c hc => by simp [(hpre c hc).1])
  refine ⟨?_, ?_, ?_, ?_⟩
  · intro c hc
    simp only [List.mem_append, List.mem_cons, List.mem_singleton, List.not_mem_nil,
      or_false] at hc
    rcases hc with hc | rfl | rfl
    · exact (hpre c hc).2.2
    · rfl
    · rfl
  · intro c hc hk
    simp only [List.mem_append, List.mem_cons, List.mem_singleton, List.not_mem_nil,
      or_false] at hc
    rcases hc with hc | rfl | rfl
    · have := hpre c hc
      rcases hk with hk | hk
      · rw [this.2.1] at hk; exact Bool.noConfusion hk
      · rw [this.1] at hk; exact Bool.noConfusion hk
    · simp only [unmapTemp, Call.target, ne_eq, Option.some.injEq]
      exact ⟨new_ne_self _, fun e => new_ne_old _ e, fun hlive e => hlive e.symm⟩
    · simp only [Call.target, ne_eq, Option.some.injEq]
      exact ⟨new_ne_self _, fun e => new_ne_old _ e, fun hlive e => hlive e.symm⟩
  · rw [List.filter_append, hfr]
    simp [unmapTemp, Call.isRenameApp]
  · rw [List.filter_append, hfu]
    simp [unmapTemp, tempRouteOf, Call.isUnmapRoutesFromApp]

theorem rollback_leaves_live_app_witness :
    smokeFailed (liveDeployer false) "example.com" argsSmoke ∧
    (Deploy MapIteration.insertionOrder (liveDeployer false) "example.com" repoB argsSmoke).1.filter
        Call.isRenameApp = [Call.RenameApp "app-new" "app-failed"] ∧
    Call.RenameApp "app-new" "app-failed" ∈
      (Deploy MapIteration.insertionOrder (liveDeployer false) "example.com" repoB argsSmoke).1 ∧
    ((liveDeployer false).LiveApp argsSmoke.AppName).1 ≠ argsSmoke.AppName ++ "-new" ∧
    (Call.RenameApp "app-new" "app-failed").target ≠
      some ((liveDeployer false).LiveApp argsSmoke.AppName).1 :=
  ⟨⟨by decide, rfl⟩,
    (rollback_leaves_live_app MapIteration.insertionOrder (liveDeployer false) "example.com"
      repoB argsSmoke ⟨by decide, rfl⟩).2.2.1,
    by decide, by decide,
    ((rollback_leaves_live_app MapIteration.insertionOrder (liveDeployer false) "example.com"
      repoB argsSmoke ⟨by decide, rfl⟩).2.1 (Call.RenameApp "app-new" "app-failed") (by decide)
      (Or.inl rfl)).2.2 (by decide)⟩

/-- C3: `Deploy` returns true iff no smoke test script was given or the smoke tests passed;
it returns false exactly when a script was given and the smoke tests failed, and the run
ends with the renaming of the candidate to `-failed` in that case and in no other. -/
theorem deploy_result_iff (it : MapIteration) (d : BlueGreenDeployer)
    (defaultCfDomain : String) (repo : Repository) (args : Args) :
    ((Deploy it d defaultCfDomain repo args).2 = true ↔
      (args.SmokeTestPath = "" ∨
        d.RunSmokeTests args.SmokeTestPath
          (FQDN { Host := args.AppName ++ "-new", Domain := { Name := defaultCfDomain } }) = true)) ∧
    ((Deploy it d defaultCfDomain repo args).2 = false ↔
      (args.SmokeTestPath ≠ "" ∧
        d.RunSmokeTests args.SmokeTestPath
          (FQDN { Host := args.AppName ++ "-new", Domain := { Name := defaultCfDomain } }) = false)) ∧
    ((Deploy it d defaultCfDomain repo args).1.getLast? =
        some (Call.RenameApp (args.AppName ++ "-new") (args.AppName ++ "-failed")) ↔
      (Deploy it d defaultCfDomain repo args).2 = false) := by
  change (_ ↔ promotes d defaultCfDomain args) ∧ (_ ↔ smokeFailed d defaultCfDomain args) ∧ _
  by_cases hp : promotes d defaultCfDomain args
  · have hnf : ¬ smokeFailed d defaultCfDomain args := fun h =>
      (not_promotes_iff d defaultCfDomain args).mpr h hp
    by_cases hl : (d.LiveApp args.AppName).1 = ""
    · rw [deploy_promote_first it d defaultCfDomain repo args hp hl]
      refine ⟨by simp [hp], by simp [hnf], ?_⟩
      have hne : args.AppName ≠ args.AppName ++ "-failed" := fun e => failed_ne_self _ e.symm
      simp [List.getLast?_append, List.getLast?_cons_cons, hne]
    · rw [deploy_promote_live it d defaultCfDomain repo args hp hl]
      refine ⟨by simp [hp], by simp [hnf], ?_⟩
      simp [List.getLast?_append, List.getLast?_cons_cons]
  · have hf := (not_promotes_iff d defaultCfDomain args).mp hp
    rw [deploy_rollback it d defaultCfDomain repo args hf]
    refine ⟨by simp [hp], by simp [hf], ?_⟩
    simp [List.getLast?_append, List.getLast?_cons_cons]

/-- C4: in every run the call that unmaps the temporary route from the candidate occurs
exactly once, and no `RenameApp` call comes before it. -/
theorem unmap_temp_once_before_renames (it : MapIteration) (d : BlueGreenDeployer)
    (defaultCfDomain : String) (repo : Repository) (args : Args) :
    (Deploy it d defaultCfDomain repo args).1.count
        (Call.UnmapRoutesFromApp (args.AppName ++ "-new")
          [{ Host := args.AppName ++ "-new", Domain := { Name := defaultCfDomain } }]) = 1 ∧
    ∃ pre post, (Deploy it d defaultCfDomain repo args).1 =
        pre ++ Call.UnmapRoutesFromApp (args.AppName ++ "-new")
          [{ Host := args.AppName ++ "-new", Domain := { Name := defaultCfDomain } }] :: post ∧
      ∀ c ∈ pre, c.isRenameApp = false := by
  have hpre := prelude_no_unmap defaultCfDomain args
  have hcount : (preludeCalls defaultCfDomain args).count (unmapTemp defaultCfDomain args) = 0 :=
    List.count_eq_zero.mpr (unmapTemp_not_mem_prelude defaultCfDomain args)
  have hu : unmapTemp defaultCfDomain args =
      Call.UnmapRoutesFromApp (args.AppName ++ "-new")
        [{ Host := args.AppName ++ "-new", Domain := { Name := defaultCfDomain } }] := rfl
  rw [← hu]
  have hold : ¬ (args.AppName ++ "-old" = args.AppName ++ "-new") := fun e => new_ne_old _ e.symm
  by_cases hp : promotes d defaultCfDomain args
  · by_cases hl : (d.LiveApp args.AppName).1 = ""
    · rw [deploy_promote_first it d defaultCfDomain repo args hp hl]
      refine ⟨?_, _, _, rfl, fun c hc => (hpre c hc).2.1⟩
      rw [List.count_append, hcount]
      simp [unmapTemp, List.count_cons]
    · rw [deploy_promote_live it d defaultCfDomain repo args hp hl]
      refine ⟨?_, _, _, rfl, fun c hc => (hpre c hc).2.1⟩
      rw [List.count_append, hcount]
      simp [unmapTemp, List.count_cons, hold]
  · have hf := (not_promotes_iff d defaultCfDomain args).mp hp
    rw [deploy_rollback it d defaultCfDomain repo args hf]
    refine ⟨?_, _, _, rfl, fun c hc => (hpre c hc).2.1⟩
    rw [List.count_append, hcount]
    simp [unmapTemp, List.count_cons]

/-- C9: in a run that promotes and in which `LiveApp` returned the empty name, the calls
after the unmapping of the temporary route are exactly: map the reconciled routes onto the
candidate, rename the candidate to the public name; nothing is unmapped from `-old` and
nothing is renamed to `-old`. -/
theorem promote_first_calls_after_unmap (it : MapIteration) (d : BlueGreenDeployer)
    (defaultCfDomain : String) (repo : Repository) (args : Args)
    (hp : promotes d defaultCfDomain args) (hl : (d.LiveApp args.AppName).1 = "") :
    callsAfter
        (Call.UnmapRoutesFromApp (args.AppName ++ "-new")
          [{ Host := args.AppName ++ "-new", Domain := { Name := defaultCfDomain } }])
        (Deploy it d defaultCfDomain repo args).1 =
      [Call.MapRoutesToApp (args.AppName ++ "-new")
          (GetNewAppRoutes it args.AppName defaultCfDomain repo (d.LiveApp args.AppName).2),
        Call.RenameApp (args.AppName ++ "-new") args.AppName] ∧
    (∀ c ∈ (Deploy it d defaultCfDomain repo args).1, ∀ routes,
      c ≠ Call.UnmapRoutesFromApp (args.AppName ++ "-old") routes) ∧
    (∀ c ∈ (Deploy it d defaultCfDomain repo args).1, ∀ app,
      c ≠ Call.RenameApp app (args.AppName ++ "-old")) := by
  rw [deploy_promote_first it d defaultCfDomain repo args hp hl]
  have hpre := prelude_no_unmap defaultCfDomain args
  refine ⟨callsAfter_append _ _ _ (unmapTemp_not_mem_prelude defaultCfDomain args), ?_, ?_⟩
  · intro c hc routes e
    subst e
    simp only [List.mem_append, List.mem_cons, List.mem_singleton, List.not_mem_nil,
      or_false] at hc
    rcases hc with hc | hc | hc | hc
    · simpa [Call.isUnmapRoutesFromApp] using (hpre _ hc).1
    · simp only [unmapTemp, Call.UnmapRoutesFromApp.injEq] at hc
      exact new_ne_old _ hc.1.symm
    · exact Call.noConfusion hc
    · exact Call.noConfusion hc
  · intro c hc app e
    subst e
    simp only [List.mem_append, List.mem_cons, List.mem_singleton, List.not_mem_nil,
      or_false] at hc
    rcases hc with hc | hc | hc | hc
    · simpa [Call.isRenameApp] using (hpre _ hc).2.1
    · exact Call.noConfusion hc
    · exact Call.noConfusion hc
    · simp only [Call.RenameApp.injEq] at hc
      exact old_ne_self _ hc.2

theorem promote_first_calls_after_unmap_witness :
    promotes (firstDeployer true) "example.com" argsPlain ∧
    ((firstDeployer true).LiveApp argsPlain.AppName).1 = "" ∧
    callsAfter
        (Call.UnmapRoutesFromApp "app-new"
          [{ Host := "app-new", Domain := { Name := "example.com" } }])
        (Deploy MapIteration.reversed (firstDeployer true) "example.com" repoB argsPlain).1 =
      [Call.MapRoutesToApp "app-new" [routeB], Call.RenameApp "app-new" "app"] :=
  ⟨Or.inl rfl, rfl,
    (promote_first_calls_after_unmap MapIteration.reversed (firstDeployer true) "example.com"
      repoB argsPlain (Or.inl rfl) rfl).1⟩

/-! ## Route reconciliation -/

/-- C5: a route occurs in `UnionRouteLists A B` iff it occurs in `A` or in `B`, routes
being compared as whole values; the function is total (it is a function on all inputs). -/
theorem unionRouteLists_mem_iff (it : MapIteration) (A B : List Route) (r : Route) :
    r ∈ UnionRouteLists it A B ↔ r ∈ A ∨ r ∈ B :=
  mem_union it A B r

/-- C6: `UnionRouteLists A B` never contains a route twice, whatever `A` and `B` repeat or
share; hence no `MapRoutesToApp` call of `Deploy` is given the same route twice. -/
theorem unionRouteLists_nodup (it : MapIteration) (A B : List Route) :
    (UnionRouteLists it A B).Nodup ∧
    ∀ (d : BlueGreenDeployer) (defaultCfDomain : String) (repo : Repository) (args : Args)
      (appName : String) (routes : List Route),
      Call.MapRoutesToApp appName routes ∈ (Deploy it d defaultCfDomain repo args).1 →
        routes.Nodup := by
  refine ⟨nodup_union it A B, ?_⟩
  intro d dom repo args appName routes hc
  have hpre := prelude_no_unmap dom args
  have hn := nodup_getNewAppRoutes it args.AppName dom repo (d.LiveApp args.AppName).2
  by_cases hp : promotes d dom args
  · by_cases hl : (d.LiveApp args.AppName).1 = ""
    · rw [deploy_promote_first it d dom repo args hp hl] at hc
      simp only [List.mem_append, List.mem_cons, List.mem_singleton, List.not_mem_nil,
        or_false] at hc
      rcases hc with hc | hc | hc | hc
      · simpa [Call.isMapRoutesToApp] using (hpre _ hc).2.2
      · exact Call.noConfusion hc
      · simp only [Call.MapRoutesToApp.injEq] at hc
        rw [hc.2]; exact hn
      · exact Call.noConfusion hc
    · rw [deploy_promote_live it d dom repo args hp hl] at hc
      simp only [List.mem_append, List.mem_cons, List.mem_singleton, List.not_mem_nil,
        or_false] at hc
      rcases hc with hc | hc | hc | hc | hc | hc
      · simpa [Call.isMapRoutesToApp] using (hpre _ hc).2.2
      · exact Call.noConfusion hc
      · simp only [Call.MapRoutesToApp.injEq] at hc
        rw [hc.2]; exact hn
      · exact Call.noConfusion hc
      · exact Call.noConfusion hc
      · exact Call.noConfusion hc
  · have hf := (not_promotes_iff d dom args).mp hp
    rw [deploy_rollback it d dom repo args hf] at hc
    simp only [List.mem_append, List.mem_cons, List.mem_singleton, List.not_mem_nil,
      or_false] at hc
    rcases hc with hc | hc | hc
    · simpa [Call.isMapRoutesToApp] using (hpre _ hc).2.2
    · exact Call.noConfusion hc
    · exact Call.noConfusion hc

theorem unionRouteLists_nodup_witness :
    (UnionRouteLists MapIteration.insertionOrder [routeB, routeA, routeB] [routeA, routeA]).Nodup ∧
    Call.MapRoutesToApp "app-new" [routeB, routeA] ∈
      (Deploy MapIteration.insertionOrder (liveDeployer true) "example.com" repoB argsPlain).1 ∧
    [routeB, routeA].Nodup :=
  ⟨(unionRouteLists_nodup MapIteration.insertionOrder [routeB, routeA, routeB] [routeA, routeA]).1,
    by decide,
    (unionRouteLists_nodup MapIteration.insertionOrder [] []).2 (liveDeployer true) "example.com"
      repoB argsPlain "app-new" [routeB, routeA] (by decide)⟩

/-- C7: when the manifest declares no routes for the application (no entry, or an entry
whose routes are nil or empty) and there are no live routes, `GetNewAppRoutes` returns
exactly the one default route `{appName, defaultCfDomain}`; and a run that promotes with no
live application maps exactly that list onto the candidate. -/
theorem getNewAppRoutes_default (it : MapIteration) (appName defaultCfDomain : String)
    (repo : Repository)
    (hman : repo appName defaultCfDomain = none ∨
      repo appName defaultCfDomain = some { Routes := none } ∨
      repo appName defaultCfDomain = some { Routes := some [] }) :
    GetNewAppRoutes it appName defaultCfDomain repo [] =
      [{ Host := appName, Domain := { Name := defaultCfDomain } }] ∧
    ∀ (d : BlueGreenDeployer) (args : Args), args.AppName = appName →
      d.LiveApp appName = ("", []) → promotes d defaultCfDomain args →
        (Deploy it d defaultCfDomain repo args).1.filter Call.isMapRoutesToApp =
          [Call.MapRoutesToApp (appName ++ "-new")
            [{ Host := appName, Domain := { Name := defaultCfDomain } }]] := by
  have hm : manifestRoutes repo appName defaultCfDomain = [] := by
    unfold manifestRoutes
    rcases hman with h | h | h <;> rw [h] <;> rfl
  have hg : GetNewAppRoutes it appName defaultCfDomain repo [] =
      [{ Host := appName, Domain := { Name := defaultCfDomain } }] := by
    rw [getNewAppRoutes_eq, hm, if_pos ((union_eq_nil_iff it [] []).mpr ⟨rfl, rfl⟩)]
    rfl
  refine ⟨hg, ?_⟩
  intro d args ha hlive hp
  subst ha
  have hl : (d.LiveApp args.AppName).1 = "" := by rw [hlive]
  have hpre := prelude_no_unmap defaultCfDomain args
  have hfm : (preludeCalls defaultCfDomain args).filter Call.isMapRoutesToApp = [] :=
    List.filter_eq_nil_iff.mpr (fun c hc => by simp [(hpre c hc).2.2])
  rw [deploy_promote_first it d defaultCfDomain repo args hp hl, List.filter_append, hfm, hlive]
  simp only [hg]
  simp [unmapTemp, Call.isMapRoutesToApp, Call.isUnmapRoutesFromApp, Call.isRenameApp]

theorem getNewAppRoutes_default_witness :
    (emptyRepo "app" "example.com" = none ∨
      emptyRepo "app" "example.com" = some { Routes := none } ∨
      emptyRepo "app" "example.com" = some { Routes := some [] }) ∧
    GetNewAppRoutes MapIteration.insertionOrder "app" "example.com" emptyRepo [] =
      [{ Host := "app", Domain := { Name := "example.com" } }] ∧
    argsPlain.AppName = "app" ∧ (firstDeployer true).LiveApp "app" = ("", []) ∧
    promotes (firstDeployer true) "example.com" argsPlain ∧
    (Deploy MapIteration.insertionOrder (firstDeployer true) "example.com" emptyRepo
        argsPlain).1.filter Call.isMapRoutesToApp =
      [Call.MapRoutesToApp "app-new" [{ Host := "app", Domain := { Name := "example.com" } }]] :=
  ⟨Or.inl rfl,
    (getNewAppRoutes_default MapIteration.insertionOrder "app" "example.com" emptyRepo
      (Or.inl rfl)).1,
    rfl, rfl, Or.inl rfl,
    (getNewAppRoutes_default MapIteration.insertionOrder "app" "example.com" emptyRepo
      (Or.inl rfl)).2 (firstDeployer true) argsPlain rfl rfl (Or.inl rfl)⟩

/-- C8: when the manifest routes for the application or the live routes contain a route,
`GetNewAppRoutes` returns a list without repetition whose routes are exactly those of the
manifest and the live routes together (so the default route is in it only if it is one of
them); live routes `a.example.com` and manifest routes `b.example.com` give exactly the two
routes `a.example.com` and `b.example.com`. -/
theorem getNewAppRoutes_union (it : MapIteration) (appName defaultCfDomain : String)
    (repo : Repository) (liveAppRoutes : List Route)
    (hne : manifestRoutes repo appName defaultCfDomain ≠ [] ∨ liveAppRoutes ≠ []) :
    (GetNewAppRoutes it appName defaultCfDomain repo liveAppRoutes).Nodup ∧
    (∀ r, r ∈ GetNewAppRoutes it appName defaultCfDomain repo liveAppRoutes ↔
      r ∈ manifestRoutes repo appName defaultCfDomain ∨ r ∈ liveAppRoutes) ∧
    (manifestRoutes repo appName defaultCfDomain = [routeB] → liveAppRoutes = [routeA] →
      (GetNewAppRoutes it appName defaultCfDomain repo liveAppRoutes).Perm [routeA, routeB]) := by
  have hnn : ¬ UnionRouteLists it (manifestRoutes repo appName defaultCfDomain) liveAppRoutes = [] := by
    rw [union_eq_nil_iff]
    rintro ⟨h1, h2⟩
    rcases hne with h | h
    · exact h h1
    · exact h h2
  have hg : GetNewAppRoutes it appName defaultCfDomain repo liveAppRoutes =
      UnionRouteLists it (manifestRoutes repo appName defaultCfDomain) liveAppRoutes := by
    rw [getNewAppRoutes_eq, if_neg hnn]
  rw [hg]
  refine ⟨nodup_union _ _ _, fun r => mem_union _ _ _ r, ?_⟩
  intro hm hlv
  rw [List.perm_ext_iff_of_nodup (nodup_union _ _ _) (by decide)]
  intro r
  rw [mem_union, hm, hlv]
  simp [or_comm]

theorem getNewAppRoutes_union_witness :
    (manifestRoutes repoB "app" "example.com" ≠ [] ∨ [routeA] ≠ []) ∧
    (GetNewAppRoutes MapIteration.reversed "app" "example.com" repoB [routeA]).Nodup ∧
    manifestRoutes repoB "app" "example.com" = [routeB] ∧
    (GetNewAppRoutes MapIteration.reversed "app" "example.com" repoB [routeA]).Perm
      [routeA, routeB] :=
  ⟨Or.inr (by decide),
    (getNewAppRoutes_union MapIteration.reversed "app" "example.com" repoB [routeA]
      (Or.inr (by decide))).1,
    rfl,
    (getNewAppRoutes_union MapIteration.reversed "app" "example.com" repoB [routeA]
      (Or.inr (by decide))).2.2 rfl rfl⟩

/-! ## Platform state along a run -/

theorem self_ne_new (s : String) : ¬ s = s ++ "-new" := fun e => new_ne_self s e.symm

theorem self_ne_old (s : String) : ¬ s = s ++ "-old" := fun e => old_ne_self s e.symm

theorem self_ne_failed (s : String) : ¬ s = s ++ "-failed" := fun e => failed_ne_self s e.symm

theorem candidateFresh_delete (p0 s : Platform) (appName dom : String)
    (h : s appName = p0 appName) :
    candidateFresh p0 appName dom (s.apply (Call.DeleteAllAppsExceptLiveApp appName)) := by
  unfold candidateFresh Platform.apply
  simp [self_ne_new, self_ne_old, self_ne_failed, h]

theorem candidateFresh_step (p0 s : Platform) (appName dom : String) (c : Call)
    (hc : quietCall appName dom c) (h : candidateFresh p0 appName dom s) :
    candidateFresh p0 appName dom (s.apply c) := by
  rcases hc with rfl | rfl | ⟨mp, rfl⟩ | ⟨a, b, rfl⟩ | rfl | rfl
  · exact candidateFresh_delete p0 s appName dom h.1
  · exact h
  · unfold candidateFresh Platform.apply
    simp [self_ne_new, h.1]
  · exact h
  · obtain ⟨h1, h2⟩ := h
    unfold candidateFresh Platform.apply
    simp only [self_ne_new, if_false, if_true, h1, true_and]
    rcases h2 with h2 | h2 | h2 <;> simp [h2]
  · obtain ⟨h1, h2⟩ := h
    unfold candidateFresh Platform.apply
    rcases h2 with h2 | h2 | h2
    · simp [h2, h1]
    · simp [h2, h1, self_ne_new, self_ne_failed, new_ne_failed]
    · simp [h2, h1, self_ne_new, self_ne_failed, new_ne_failed]

theorem run_invariant (I : Platform → Prop) (good : Call → Prop)
    (hstep : ∀ s c, good c → I s → I (Platform.apply s c)) :
    ∀ (cs : List Call) (s : Platform), I s → (∀ c ∈ cs, good c) → I (Platform.run s cs) := by
  intro cs
  induction cs with
  | nil => intro s hs _; exact hs
  | cons x xs ih =>
    intro s hs hg
    exact ih _ (hstep s x (hg x (by simp)) hs) (fun c hc => hg c (by simp [hc]))

theorem run_append (s : Platform) (xs ys : List Call) :
    Platform.run s (xs ++ ys) = Platform.run (Platform.run s xs) ys := by
  unfold Platform.run
  exact List.foldl_append _ _ _ _

theorem candidateFresh_disjoint (p0 s : Platform) (appName dom : String)
    (htemp : tempRouteOf appName dom ∉ p0.routesOf appName)
    (h : candidateFresh p0 appName dom s) : s.disjointAt appName := by
  intro _ _ r hr
  obtain ⟨h1, h2⟩ := h
  have hN : s.routesOf appName = p0.routesOf appName := by
    unfold Platform.routesOf; rw [h1]
  rw [hN] at hr
  unfold Platform.routesOf at hr
  rcases h2 with h2 | h2 | h2
  · rw [h2] at hr; simp at hr
  · rw [h2] at hr
    simp only [Option.getD_some, List.mem_singleton] at hr
    obtain ⟨ha, hb⟩ := hr
    subst hb
    exact htemp ha
  · rw [h2] at hr; simp at hr

theorem mem_take_before (P : Call → Prop) (l1 l2 : List Call) (m : Call) (hm : ¬ P m)
    (k : Nat) (h : ∀ c ∈ (l1 ++ m :: l2).take k, P c) :
    ∀ c ∈ (l1 ++ m :: l2).take k, c ∈ l1 := by
  by_cases hk : k ≤ l1.length
  · intro c hc
    rw [List.take_append_of_le_length hk] at hc
    exact List.mem_of_mem_take hc
  · exfalso
    apply hm
    apply h
    rw [List.take_append_eq_append_take]
    have : k - l1.length = (k - l1.length - 1) + 1 := by omega
    rw [this, List.take_succ_cons]
    simp

theorem prelude_quiet (dom : String) (args : Args) :
    ∀ c ∈ preludeCalls dom args, quietCall args.AppName dom c := by
  intro c hc
  unfold preludeCalls at hc
  simp only [List.mem_append, List.mem_cons, List.mem_singleton, List.not_mem_nil,
    or_false] at hc
  rcases hc with (rfl | rfl | rfl) | hc
  · exact Or.inl rfl
  · exact Or.inr (Or.inl rfl)
  · exact Or.inr (Or.inr (Or.inl ⟨_, rfl⟩))
  · split at hc
    · rw [List.mem_singleton] at hc
      exact Or.inr (Or.inr (Or.inr (Or.inl ⟨_, _, hc⟩)))
    · exact absurd hc (List.not_mem_nil c)

/-- The calls of a prefix of a run in which nothing is mapped are all quiet. -/
theorem take_quiet (it : MapIteration) (d : BlueGreenDeployer) (dom : String)
    (repo : Repository) (args : Args) (k : Nat)
    (hmap : ∀ c ∈ (Deploy it d dom repo args).1.take k, c.isMapRoutesToApp = false) :
    ∀ c ∈ (Deploy it d dom repo args).1.take k, quietCall args.AppName dom c := by
  have hq := prelude_quiet dom args
  have hsplit : ∀ (tail : List Call) (m : Call), m.isMapRoutesToApp = true →
      (∀ c ∈ ((preludeCalls dom args ++ [unmapTemp dom args]) ++ m :: tail).take k,
        c.isMapRoutesToApp = false) →
      ∀ c ∈ ((preludeCalls dom args ++ [unmapTemp dom args]) ++ m :: tail).take k,
        quietCall args.AppName dom c := by
    intro tail m hm h c hc
    have := mem_take_before (fun c => c.isMapRoutesToApp = false) _ tail m (by simp [hm]) k h c hc
    rw [List.mem_append, List.mem_singleton] at this
    rcases this with h1 | h1
    · exact hq c h1
    · exact Or.inr (Or.inr (Or.inr (Or.inr (Or.inl h1))))
  by_cases hp : promotes d dom args
  · by_cases hl : (d.LiveApp args.AppName).1 = ""
    · rw [deploy_promote_first it d dom repo args hp hl] at hmap ⊢
      simp only [List.append_assoc, List.singleton_append] at hsplit
      exact hsplit _ _ rfl hmap
    · rw [deploy_promote_live it d dom repo args hp hl] at hmap ⊢
      simp only [List.append_assoc, List.singleton_append] at hsplit
      exact hsplit _ _ rfl hmap
  · have hf := (not_promotes_iff d dom args).mp hp
    rw [deploy_rollback it d dom repo args hf]
    intro c hc
    have hc := List.mem_of_mem_take hc
    simp only [List.mem_append, List.mem_cons, List.mem_singleton, List.not_mem_nil,
      or_false] at hc
    rcases hc with h1 | h1 | h1
    · exact hq c h1
    · exact Or.inr (Or.inr (Or.inr (Or.inr (Or.inl h1))))
    · exact Or.inr (Or.inr (Or.inr (Or.inr (Or.inr h1))))

theorem deploy_head (it : MapIteration) (d : BlueGreenDeployer) (dom : String)
    (repo : Repository) (args : Args) :
    ∃ rest, (Deploy it d dom repo args).1 =
      Call.DeleteAllAppsExceptLiveApp args.AppName :: rest := by
  by_cases hp : promotes d dom args
  · by_cases hl : (d.LiveApp args.AppName).1 = ""
    · rw [deploy_promote_first it d dom repo args hp hl]
      exact ⟨_, by simp [preludeCalls]; rfl⟩
    · rw [deploy_promote_live it d dom repo args hp hl]
      exact ⟨_, by simp [preludeCalls]; rfl⟩
  · have hf := (not_promotes_iff d dom args).mp hp
    rw [deploy_rollback it d dom repo args hf]
    exact ⟨_, by simp [preludeCalls]; rfl⟩

theorem live_mem_getNewAppRoutes (it : MapIteration) (appName dom : String) (repo : Repository)
    (liveAppRoutes : List Route) (r : Route) (hr : r ∈ liveAppRoutes) :
    r ∈ GetNewAppRoutes it appName dom repo liveAppRoutes := by
  have hu : r ∈ UnionRouteLists it (manifestRoutes repo appName dom) liveAppRoutes :=
    (mem_union _ _ _ r).mpr (Or.inr hr)
  rw [getNewAppRoutes_eq]
  split
  · rename_i h
    rw [h] at hu
    exact absurd hu (List.not_mem_nil r)
  · exact hu

/-- The platform state once the temporary route is unmapped: the live application is
untouched and the candidate exists without routes. -/
theorem run_to_unmap (p0 : Platform) (dom : String) (args : Args) :
    Platform.run p0 (preludeCalls dom args ++ [unmapTemp dom args]) args.AppName =
        p0 args.AppName ∧
      Platform.run p0 (preludeCalls dom args ++ [unmapTemp dom args]) (args.AppName ++ "-new") =
        some [] := by
  unfold preludeCalls unmapTemp
  by_cases hs : args.SmokeTestPath = ""
  · simp [hs, Platform.run, Platform.apply, self_ne_new, self_ne_old, self_ne_failed]
  · simp [hs, Platform.run, Platform.apply, self_ne_new, self_ne_old, self_ne_failed]

/-- A run that promotes maps the reconciled routes right after unmapping the temporary
route. -/
theorem deploy_promote_map (it : MapIteration) (d : BlueGreenDeployer) (dom : String)
    (repo : Repository) (args : Args) (hp : promotes d dom args) :
    ∃ tail, (Deploy it d dom repo args).1 =
      (preludeCalls dom args ++ [unmapTemp dom args]) ++
        Call.MapRoutesToApp (args.AppName ++ "-new")
          (GetNewAppRoutes it args.AppName dom repo (d.LiveApp args.AppName).2) :: tail := by
  by_cases hl : (d.LiveApp args.AppName).1 = ""
  · rw [deploy_promote_first it d dom repo args hp hl]
    exact ⟨[Call.RenameApp (args.AppName ++ "-new") args.AppName], by simp⟩
  · rw [deploy_promote_live it d dom repo args hp hl]
    exact ⟨[Call.RenameApp (d.LiveApp args.AppName).1 (args.AppName ++ "-old"),
      Call.RenameApp (args.AppName ++ "-new") args.AppName,
      Call.UnmapRoutesFromApp (args.AppName ++ "-old") (d.LiveApp args.AppName).2], by simp⟩

/-- C10, counterexample: with the live application `app` holding `a.example.com` and no
smoke tests, after the fifth call of the run (`MapRoutesToApp`) both `app` and `app-new`
exist and both hold `a.example.com`. -/
theorem live_and_candidate_share_route :
    ¬ Platform.disjointAt
      (Platform.run livePlatform
        ((Deploy MapIteration.insertionOrder (platformDeployer livePlatform (fun _ _ => true))
          "example.com" emptyRepo argsPlain).1.take 5)) "app" := by
  intro h
  exact h (by decide) (by decide) routeA (by decide)

/-- C10, amended: on a platform where the live application does not already hold the
temporary route, at every point of a run after the cleaning call and before anything is
mapped onto the candidate (in a run that rolls back: at every point after the cleaning
call), no route is held by both the live application and the candidate; and in a run that
promotes over a live application, right after the `MapRoutesToApp` call both exist and
every live route is held by both. -/
theorem candidate_disjoint_until_map (it : MapIteration) (p0 : Platform)
    (smoke : String → String → Bool) (defaultCfDomain : String) (repo : Repository)
    (args : Args)
    (htemp : tempRouteOf args.AppName defaultCfDomain ∉ p0.routesOf args.AppName) :
    (∀ k, 1 ≤ k →
      (∀ c ∈ (Deploy it (platformDeployer p0 smoke) defaultCfDomain repo args).1.take k,
        c.isMapRoutesToApp = false) →
      Platform.disjointAt
        (Platform.run p0
          ((Deploy it (platformDeployer p0 smoke) defaultCfDomain repo args).1.take k))
        args.AppName) ∧
    (∀ held, p0 args.AppName = some held →
      promotes (platformDeployer p0 smoke) defaultCfDomain args →
      ∃ k routes,
        ((Deploy it (platformDeployer p0 smoke) defaultCfDomain repo args).1.take k).getLast? =
          some (Call.MapRoutesToApp (args.AppName ++ "-new") routes) ∧
        Platform.run p0
            ((Deploy it (platformDeployer p0 smoke) defaultCfDomain repo args).1.take k)
            args.AppName = some held ∧
        Platform.run p0
            ((Deploy it (platformDeployer p0 smoke) defaultCfDomain repo args).1.take k)
            (args.AppName ++ "-new") = some routes ∧
        ∀ r ∈ held, r ∈ routes) := by
  constructor
  · intro k hk hmap
    have hq := take_quiet it (platformDeployer p0 smoke) defaultCfDomain repo args k hmap
    obtain ⟨rest, hrest⟩ := deploy_head it (platformDeployer p0 smoke) defaultCfDomain repo args
    rw [hrest] at hq ⊢
    obtain ⟨j, rfl⟩ : ∃ j, k = j + 1 := ⟨k - 1, by omega⟩
    rw [List.take_succ_cons] at hq ⊢
    apply candidateFresh_disjoint p0 _ args.AppName defaultCfDomain htemp
    exact run_invariant (candidateFresh p0 args.AppName defaultCfDomain)
      (quietCall args.AppName defaultCfDomain)
      (fun s c hc hs => candidateFresh_step p0 s args.AppName defaultCfDomain c hc hs)
      (rest.take j) _ (candidateFresh_delete p0 p0 args.AppName defaultCfDomain rfl)
      (fun c hc => hq c (List.mem_cons_of_mem _ hc))
  · intro held hheld hp
    have hlive : ((platformDeployer p0 smoke).LiveApp args.AppName).2 = held := by
      simp [platformDeployer, hheld]
    obtain ⟨tail, htail⟩ := deploy_promote_map it (platformDeployer p0 smoke) defaultCfDomain
      repo args hp
    rw [hlive] at htail
    obtain ⟨h1, h2⟩ := run_to_unmap p0 defaultCfDomain args
    refine ⟨(preludeCalls defaultCfDomain args ++ [unmapTemp defaultCfDomain args]).length + 1,
      GetNewAppRoutes it args.AppName defaultCfDomain repo held, ?_, ?_, ?_, ?_⟩
    · rw [htail, List.take_append, List.take_succ_cons, List.take_zero]
      simp [List.getLast?_append]
    · rw [htail, List.take_append, List.take_succ_cons, List.take_zero, run_append]
      show Platform.apply _ (Call.MapRoutesToApp _ _) args.AppName = some held
      simp only [Platform.apply, self_ne_new, if_false]
      rw [h1, hheld]
    · rw [htail, List.take_append, List.take_succ_cons, List.take_zero, run_append]
      show Platform.apply _ (Call.MapRoutesToApp _ _) (args.AppName ++ "-new") = some _
      simp only [Platform.apply, if_true]
      rw [h2]
      simp
    · intro r hr
      exact live_mem_getNewAppRoutes it _ _ _ _ r hr

theorem candidate_disjoint_until_map_witness :
    tempRouteOf argsPlain.AppName "example.com" ∉ livePlatform.routesOf argsPlain.AppName ∧
    1 ≤ 4 ∧
    (∀ c ∈ (Deploy MapIteration.insertionOrder (platformDeployer livePlatform (fun _ _ => true))
        "example.com" emptyRepo argsPlain).1.take 4, c.isMapRoutesToApp = false) ∧
    (Platform.run livePlatform
      ((Deploy MapIteration.insertionOrder (platformDeployer livePlatform (fun _ _ => true))
        "example.com" emptyRepo argsPlain).1.take 4) "app-new").isSome = true ∧
    Platform.disjointAt
      (Platform.run livePlatform
        ((Deploy MapIteration.insertionOrder (platformDeployer livePlatform (fun _ _ => true))
          "example.com" emptyRepo argsPlain).1.take 4)) argsPlain.AppName ∧
    livePlatform argsPlain.AppName = some [routeA] ∧
    promotes (platformDeployer livePlatform (fun _ _ => true)) "example.com" argsPlain ∧
    ∃ k routes,
      ((Deploy MapIteration.insertionOrder (platformDeployer livePlatform (fun _ _ => true))
        "example.com" emptyRepo argsPlain).1.take k).getLast? =
          some (Call.MapRoutesToApp (argsPlain.AppName ++ "-new") routes) ∧
      Platform.run livePlatform
          ((Deploy MapIteration.insertionOrder (platformDeployer livePlatform (fun _ _ => true))
            "example.com" emptyRepo argsPlain).1.take k) argsPlain.AppName = some [routeA] ∧
      Platform.run livePlatform
          ((Deploy MapIteration.insertionOrder (platformDeployer livePlatform (fun _ _ => true))
            "example.com" emptyRepo argsPlain).1.take k) (argsPlain.AppName ++ "-new") =
        some routes ∧
      ∀ r ∈ [routeA], r ∈ routes :=
  ⟨by decide, by decide, by decide, by decide,
    (candidate_disjoint_until_map MapIteration.insertionOrder livePlatform (fun _ _ => true)
      "example.com" emptyRepo argsPlain (by decide)).1 4 (by decide) (by decide),
    rfl, Or.inl rfl,
    (candidate_disjoint_until_map MapIteration.insertionOrder livePlatform (fun _ _ => true)
      "example.com" emptyRepo argsPlain (by decide)).2 [routeA] rfl (Or.inl rfl)⟩

/-! ## Algebra of the union -/

theorem union_perm_of_same_members (it1 it2 : MapIteration) (A B C D : List Route)
    (h : ∀ r, (r ∈ A ∨ r ∈ B) ↔ (r ∈ C ∨ r ∈ D)) :
    (UnionRouteLists it1 A B).Perm (UnionRouteLists it2 C D) := by
  rw [List.perm_ext_iff_of_nodup (nodup_union _ _ _) (nodup_union _ _ _)]
  intro r
  rw [mem_union, mem_union]
  exact h r

/-- C13: `UnionRouteLists A B` and `UnionRouteLists B A` are equal as route sets, whatever
the order in which each call ranges over its map: they contain the same routes and have the
same length. -/
theorem unionRouteLists_comm (it1 it2 : MapIteration) (A B : List Route) :
    (∀ r, r ∈ UnionRouteLists it1 A B ↔ r ∈ UnionRouteLists it2 B A) ∧
    (UnionRouteLists it1 A B).length = (UnionRouteLists it2 B A).length := by
  have hperm := union_perm_of_same_members it1 it2 A B B A (fun r => or_comm)
  exact ⟨fun r => hperm.mem_iff, hperm.length_eq⟩

/-- C14: for a list `A` without repeated routes, `UnionRouteLists A A` equals `A` as a route
set: it contains exactly the routes of `A` and has the length of `A`. -/
theorem unionRouteLists_idem (it : MapIteration) (A : List Route) (hA : A.Nodup) :
    (∀ r, r ∈ UnionRouteLists it A A ↔ r ∈ A) ∧ (UnionRouteLists it A A).length = A.length := by
  have hperm : (UnionRouteLists it A A).Perm A := by
    rw [List.perm_ext_iff_of_nodup (nodup_union _ _ _) hA]
    intro r
    rw [mem_union, or_self]
  exact ⟨fun r => hperm.mem_iff, hperm.length_eq⟩

theorem unionRouteLists_idem_witness :
    [routeA, routeB].Nodup ∧
    (∀ r, r ∈ UnionRouteLists MapIteration.reversed [routeA, routeB] [routeA, routeB] ↔
      r ∈ [routeA, routeB]) ∧
    (UnionRouteLists MapIteration.reversed [routeA, routeB] [routeA, routeB]).length =
      [routeA, routeB].length :=
  ⟨by decide, unionRouteLists_idem MapIteration.reversed [routeA, routeB] (by decide)⟩

/-! ## Names and the opening of a run -/

theorem old_ne_failed (s : String) : s ++ "-old" ≠ s ++ "-failed" := fun h =>
  absurd (append_left_cancel s _ _ h) (by decide)

/-- The shape shared by all runs: the prelude, the unmapping of the temporary route, and
a tail. -/
theorem deploy_shape (it : MapIteration) (d : BlueGreenDeployer) (dom : String)
    (repo : Repository) (args : Args) :
    ∃ tail, (Deploy it d dom repo args).1 = preludeCalls dom args ++ unmapTemp dom args :: tail := by
  by_cases hp : promotes d dom args
  · by_cases hl : (d.LiveApp args.AppName).1 = ""
    · rw [deploy_promote_first it d dom repo args hp hl]; exact ⟨_, rfl⟩
    · rw [deploy_promote_live it d dom repo args hp hl]; exact ⟨_, rfl⟩
  · have hf := (not_promotes_iff d dom args).mp hp
    rw [deploy_rollback it d dom repo args hf]; exact ⟨_, rfl⟩

/-- C15: the names `Deploy` derives from the application name by appending `-new`, `-old`
and `-failed` are pairwise distinct and distinct from the application name (for every
name, the empty one included); they are the names of the pushed candidate, of the renamed
live application and of the failed candidate. -/
theorem auxiliary_names_distinct (it : MapIteration) (d : BlueGreenDeployer)
    (defaultCfDomain : String) (repo : Repository) (args : Args) :
    (args.AppName ++ "-new" ≠ args.AppName ∧ args.AppName ++ "-old" ≠ args.AppName ∧
      args.AppName ++ "-failed" ≠ args.AppName ∧
      args.AppName ++ "-new" ≠ args.AppName ++ "-old" ∧
      args.AppName ++ "-new" ≠ args.AppName ++ "-failed" ∧
      args.AppName ++ "-old" ≠ args.AppName ++ "-failed") ∧
    Call.PushNewApp (args.AppName ++ "-new")
        { Host := args.AppName ++ "-new", Domain := { Name := defaultCfDomain } }
        args.ManifestPath ∈ (Deploy it d defaultCfDomain repo args).1 ∧
    (promotes d defaultCfDomain args → (d.LiveApp args.AppName).1 ≠ "" →
      Call.RenameApp (d.LiveApp args.AppName).1 (args.AppName ++ "-old") ∈
        (Deploy it d defaultCfDomain repo args).1) ∧
    (smokeFailed d defaultCfDomain args →
      Call.RenameApp (args.AppName ++ "-new") (args.AppName ++ "-failed") ∈
        (Deploy it d defaultCfDomain repo args).1) := by
  refine ⟨⟨new_ne_self _, old_ne_self _, failed_ne_self _, new_ne_old _, new_ne_failed _,
    old_ne_failed _⟩, ?_, ?_, ?_⟩
  · obtain ⟨tail, ht⟩ := deploy_shape it d defaultCfDomain repo args
    rw [ht]
    simp [preludeCalls, tempRouteOf]
  · intro hp hl
    rw [deploy_promote_live it d defaultCfDomain repo args hp hl]
    simp
  · intro hf
    rw [deploy_rollback it d defaultCfDomain repo args hf]
    simp

theorem auxiliary_names_distinct_witness :
    ("app" ++ "-new" ≠ "app" ++ "-old") ∧
    promotes (liveDeployer true) "example.com" argsPlain ∧
    Call.RenameApp "app" "app-old" ∈
      (Deploy MapIteration.insertionOrder (liveDeployer true) "example.com" repoB argsPlain).1 ∧
    smokeFailed (liveDeployer false) "example.com" argsSmoke ∧
    Call.RenameApp "app-new" "app-failed" ∈
      (Deploy MapIteration.insertionOrder (liveDeployer false) "example.com" repoB argsSmoke).1 :=
  ⟨(auxiliary_names_distinct MapIteration.insertionOrder (liveDeployer true) "example.com" repoB
      argsPlain).1.2.2.2.1,
    Or.inl rfl,
    (auxiliary_names_distinct MapIteration.insertionOrder (liveDeployer true) "example.com" repoB
      argsPlain).2.2.1 (Or.inl rfl) (by decide),
    ⟨by decide, rfl⟩,
    (auxiliary_names_distinct MapIteration.insertionOrder (liveDeployer false) "example.com" repoB
      argsSmoke).2.2.2 ⟨by decide, rfl⟩⟩

/-- C16: every run begins with exactly the cleaning call, the query for the live
application and the push of the candidate with the temporary route and the manifest
path, in this order. -/
theorem deploy_opening_calls (it : MapIteration) (d : BlueGreenDeployer)
    (defaultCfDomain : String) (repo : Repository) (args : Args) :
    (Deploy it d defaultCfDomain repo args).1.take 3 =
      [Call.DeleteAllAppsExceptLiveApp args.AppName, Call.LiveApp args.AppName,
        Call.PushNewApp (args.AppName ++ "-new")
          { Host := args.AppName ++ "-new", Domain := { Name := defaultCfDomain } }
          args.ManifestPath] := by
  obtain ⟨tail, ht⟩ := deploy_shape it d defaultCfDomain repo args
  rw [ht]
  simp [preludeCalls, tempRouteOf]

/-- C17: `RunSmokeTests` is called exactly once when a smoke test script is given and not
at all otherwise; it is called with the script and with the host and the domain name of
the temporary route joined by a dot, right after the push and right before the temporary
route is unmapped. -/
theorem smoke_tests_called_once (it : MapIteration) (d : BlueGreenDeployer)
    (defaultCfDomain : String) (repo : Repository) (args : Args) :
    FQDN { Host := args.AppName ++ "-new", Domain := { Name := defaultCfDomain } } =
      args.AppName ++ "-new" ++ "." ++ defaultCfDomain ∧
    (args.SmokeTestPath = "" →
      (Deploy it d defaultCfDomain repo args).1.filter Call.isRunSmokeTests = []) ∧
    (args.SmokeTestPath ≠ "" →
      (Deploy it d defaultCfDomain repo args).1.filter Call.isRunSmokeTests =
        [Call.RunSmokeTests args.SmokeTestPath
          (args.AppName ++ "-new" ++ "." ++ defaultCfDomain)] ∧
      (Deploy it d defaultCfDomain repo args).1.take 5 =
        [Call.DeleteAllAppsExceptLiveApp args.AppName, Call.LiveApp args.AppName,
          Call.PushNewApp (args.AppName ++ "-new")
            { Host := args.AppName ++ "-new", Domain := { Name := defaultCfDomain } }
            args.ManifestPath,
          Call.RunSmokeTests args.SmokeTestPath
            (args.AppName ++ "-new" ++ "." ++ defaultCfDomain),
          Call.UnmapRoutesFromApp (args.AppName ++ "-new")
            [{ Host := args.AppName ++ "-new", Domain := { Name := defaultCfDomain } }]]) := by
  refine ⟨rfl, ?_, ?_⟩
  · intro hs
    by_cases hp : promotes d defaultCfDomain args
    · by_cases hl : (d.LiveApp args.AppName).1 = ""
      · rw [deploy_promote_first it d defaultCfDomain repo args hp hl]
        simp [preludeCalls, unmapTemp, hs, Call.isRunSmokeTests]
      · rw [deploy_promote_live it d defaultCfDomain repo args hp hl]
        simp [preludeCalls, unmapTemp, hs, Call.isRunSmokeTests]
    · have hf := (not_promotes_iff d defaultCfDomain args).mp hp
      exact absurd hs hf.1
  · intro hs
    by_cases hp : promotes d defaultCfDomain args
    · by_cases hl : (d.LiveApp args.AppName).1 = ""
      · rw [deploy_promote_first it d defaultCfDomain repo args hp hl]
        simp [preludeCalls, unmapTemp, hs, Call.isRunSmokeTests, tempRouteOf, FQDN]
      · rw [deploy_promote_live it d defaultCfDomain repo args hp hl]
        simp [preludeCalls, unmapTemp, hs, Call.isRunSmokeTests, tempRouteOf, FQDN]
    · have hf := (not_promotes_iff d defaultCfDomain args).mp hp
      rw [deploy_rollback it d defaultCfDomain repo args hf]
      simp [preludeCalls, unmapTemp, hs, Call.isRunSmokeTests, tempRouteOf, FQDN]

theorem smoke_tests_called_once_witness :
    (argsPlain.SmokeTestPath = "" ∧
      (Deploy MapIteration.insertionOrder (liveDeployer true) "example.com" repoB
        argsPlain).1.filter Call.isRunSmokeTests = []) ∧
    (argsSmoke.SmokeTestPath ≠ "" ∧
      (Deploy MapIteration.insertionOrder (liveDeployer false) "example.com" repoB
        argsSmoke).1.filter Call.isRunSmokeTests =
          [Call.RunSmokeTests "./smoke.sh" "app-new.example.com"]) :=
  ⟨⟨rfl, (smoke_tests_called_once MapIteration.insertionOrder (liveDeployer true) "example.com"
      repoB argsPlain).2.1 rfl⟩,
    ⟨by decide, ((smoke_tests_called_once MapIteration.insertionOrder (liveDeployer false)
      "example.com" repoB argsSmoke).2.2 (by decide)).1⟩⟩

/-! ## Platform state of a promoting run -/

theorem run_cons (s : Platform) (c : Call) (cs : List Call) :
    Platform.run s (c :: cs) = Platform.run (s.apply c) cs := rfl

theorem run_nil (s : Platform) : Platform.run s [] = s := rfl

theorem apply_rename_target (s : Platform) (a b : String) (held : List Route)
    (h : s a = some held) : (s.apply (Call.RenameApp a b)) b = some held := by
  simp [Platform.apply, h]

theorem apply_rename_other (s : Platform) (a b n : String) (h1 : n ≠ a) (h2 : n ≠ b) :
    (s.apply (Call.RenameApp a b)) n = s n := by
  cases h : s a with
  | none => simp only [Platform.apply, h]
  | some held => simp only [Platform.apply, h, h1, h2, if_false]

theorem apply_unmap_other (s : Platform) (a n : String) (routes : List Route) (h : n ≠ a) :
    (s.apply (Call.UnmapRoutesFromApp a routes)) n = s n := by
  simp [Platform.apply, h]

theorem keepsLive_step (p0 s : Platform) (appName dom : String) (c : Call)
    (hc : keepsLive appName dom c) (h : s appName = p0 appName) :
    (s.apply c) appName = p0 appName := by
  rcases hc with (rfl | rfl | ⟨mp, rfl⟩ | ⟨a, b, rfl⟩ | rfl | rfl) | ⟨routes, rfl⟩
  · simp [Platform.apply, self_ne_new, self_ne_old, self_ne_failed, h]
  · exact h
  · simp [Platform.apply, self_ne_new, h]
  · exact h
  · rw [apply_unmap_other s _ _ _ (self_ne_new appName)]; exact h
  · rw [apply_rename_other s _ _ _ (self_ne_new appName) (self_ne_failed appName)]; exact h
  · simp [Platform.apply, self_ne_new, h]

theorem run_keepsLive (p0 : Platform) (appName dom : String) (cs : List Call)
    (hcs : ∀ c ∈ cs, keepsLive appName dom c) : Platform.run p0 cs appName = p0 appName :=
  run_invariant (fun s => s appName = p0 appName) (keepsLive appName dom)
    (fun s c hc hs => keepsLive_step p0 s appName dom c hc hs) cs p0 rfl hcs

/-- The calls of a run up to and including the mapping onto the candidate. -/
theorem to_map_keepsLive (dom : String) (args : Args) (routes : List Route) :
    ∀ c ∈ (preludeCalls dom args ++ [unmapTemp dom args]) ++
        [Call.MapRoutesToApp (args.AppName ++ "-new") routes],
      keepsLive args.AppName dom c := by
  intro c hc
  simp only [List.mem_append, List.mem_singleton] at hc
  rcases hc with (hc | hc) | hc
  · exact Or.inl (prelude_quiet dom args c hc)
  · exact Or.inl (Or.inr (Or.inr (Or.inr (Or.inr (Or.inl hc)))))
  · exact Or.inr ⟨routes, hc⟩

/-- The platform state right after the mapping onto the candidate. -/
theorem run_to_map (p0 : Platform) (dom : String) (args : Args) (routes : List Route) :
    Platform.run p0 ((preludeCalls dom args ++ [unmapTemp dom args]) ++
        [Call.MapRoutesToApp (args.AppName ++ "-new") routes]) args.AppName = p0 args.AppName ∧
    Platform.run p0 ((preludeCalls dom args ++ [unmapTemp dom args]) ++
        [Call.MapRoutesToApp (args.AppName ++ "-new") routes]) (args.AppName ++ "-new") =
      some routes := by
  obtain ⟨h1, h2⟩ := run_to_unmap p0 dom args
  rw [run_append]
  constructor
  · show Platform.apply _ (Call.MapRoutesToApp _ _) args.AppName = _
    simp only [Platform.apply, self_ne_new, if_false]
    exact h1
  · show Platform.apply _ (Call.MapRoutesToApp _ _) (args.AppName ++ "-new") = _
    simp only [Platform.apply, if_true]
    rw [h2]
    simp

/-- The platform states of the promotion when there is no live application to rename:
after the renaming the public name holds the mapped routes. -/
theorem run_promote_first (p0 : Platform) (dom : String) (args : Args) (routes : List Route) :
    Platform.run p0 (((preludeCalls dom args ++ [unmapTemp dom args]) ++
        [Call.MapRoutesToApp (args.AppName ++ "-new") routes]) ++
        [Call.RenameApp (args.AppName ++ "-new") args.AppName]) args.AppName = some routes := by
  obtain ⟨_, h2⟩ := run_to_map p0 dom args routes
  rw [run_append]
  exact apply_rename_target _ _ _ _ h2

/-- The platform states of the promotion over a live application: after the first
renaming `-old` holds the live routes, after the second renaming and after the final
unmapping the public name holds the mapped routes. -/
theorem run_promote_live (p0 : Platform) (dom : String) (args : Args)
    (routes held liveAppRoutes : List Route) (hheld : p0 args.AppName = some held) :
    Platform.run p0 (((preludeCalls dom args ++ [unmapTemp dom args]) ++
        [Call.MapRoutesToApp (args.AppName ++ "-new") routes]) ++
        [Call.RenameApp args.AppName (args.AppName ++ "-old")]) (args.AppName ++ "-old") =
      some held ∧
    Platform.run p0 (((preludeCalls dom args ++ [unmapTemp dom args]) ++
        [Call.MapRoutesToApp (args.AppName ++ "-new") routes]) ++
        [Call.RenameApp args.AppName (args.AppName ++ "-old"),
          Call.RenameApp (args.AppName ++ "-new") args.AppName]) args.AppName = some routes ∧
    Platform.run p0 (((preludeCalls dom args ++ [unmapTemp dom args]) ++
        [Call.MapRoutesToApp (args.AppName ++ "-new") routes]) ++
        [Call.RenameApp args.AppName (args.AppName ++ "-old"),
          Call.RenameApp (args.AppName ++ "-new") args.AppName,
          Call.UnmapRoutesFromApp (args.AppName ++ "-old") liveAppRoutes]) args.AppName =
      some routes := by
  obtain ⟨h1, h2⟩ := run_to_map p0 dom args routes
  rw [hheld] at h1
  have hR1 : (Platform.apply (Platform.run p0 ((preludeCalls dom args ++ [unmapTemp dom args]) ++
      [Call.MapRoutesToApp (args.AppName ++ "-new") routes]))
      (Call.RenameApp args.AppName (args.AppName ++ "-old"))) (args.AppName ++ "-new") =
      some routes := by
    rw [apply_rename_other _ _ _ _ (new_ne_self _) (new_ne_old _)]
    exact h2
  refine ⟨?_, ?_, ?_⟩
  · rw [run_append]
    exact apply_rename_target _ _ _ _ h1
  · rw [run_append, run_cons, run_cons, run_nil]
    exact apply_rename_target _ _ _ _ hR1
  · rw [run_append, run_cons, run_cons, run_cons, run_nil,
      apply_unmap_other _ _ _ _ (self_ne_old _)]
    exact apply_rename_target _ _ _ _ hR1

theorem take_split (A tail : List Call) (k : Nat) :
    (A ++ tail).take k = A.take k ∨ ∃ j, 1 ≤ j ∧ (A ++ tail).take k = A ++ tail.take j := by
  by_cases hk : k ≤ A.length
  · exact Or.inl (List.take_append_of_le_length hk)
  · refine Or.inr ⟨k - A.length, by omega, ?_⟩
    rw [List.take_append_eq_append_take, List.take_of_length_le (by omega)]

theorem mem_routesOf (s : Platform) (app : String) (held : List Route) (r : Route)
    (h : s app = some held) (hr : r ∈ held) : r ∈ s.routesOf app := by
  unfold Platform.routesOf
  rw [h]
  exact hr

theorem routesOf_eq (s : Platform) (app : String) (held : List Route) (h : s app = some held) :
    s.routesOf app = held := by
  unfold Platform.routesOf
  rw [h]
  rfl

/-- C12: over the platform state, every route the live application holds is held by some
application after every call of a run: the reconciled routes mapped onto the candidate
contain every live route, and in a run that promotes they are mapped before any renaming
and before anything is unmapped from `-old`. -/
theorem live_routes_always_held (it : MapIteration) (p0 : Platform)
    (smoke : String → String → Bool) (defaultCfDomain : String) (repo : Repository)
    (args : Args) :
    (∀ k, ∀ r ∈ ((platformDeployer p0 smoke).LiveApp args.AppName).2,
      ∃ app, r ∈ (Platform.run p0
        ((Deploy it (platformDeployer p0 smoke) defaultCfDomain repo args).1.take k)).routesOf app) ∧
    (∀ r ∈ ((platformDeployer p0 smoke).LiveApp args.AppName).2,
      r ∈ GetNewAppRoutes it args.AppName defaultCfDomain repo
        ((platformDeployer p0 smoke).LiveApp args.AppName).2) ∧
    (promotes (platformDeployer p0 smoke) defaultCfDomain args →
      ∃ pre post, (Deploy it (platformDeployer p0 smoke) defaultCfDomain repo args).1 =
          pre ++ Call.MapRoutesToApp (args.AppName ++ "-new")
            (GetNewAppRoutes it args.AppName defaultCfDomain repo
              ((platformDeployer p0 smoke).LiveApp args.AppName).2) :: post ∧
        (∀ c ∈ pre, c.isRenameApp = false) ∧
        ∀ c ∈ pre, ∀ routes, c ≠ Call.UnmapRoutesFromApp (args.AppName ++ "-old") routes) := by
  refine ⟨?_, fun r hr => live_mem_getNewAppRoutes it _ _ _ _ r hr, ?_⟩
  · cases hN : p0 args.AppName with
    | none =>
      intro k r hr
      simp [platformDeployer, hN] at hr
    | some held =>
      have hlive : (platformDeployer p0 smoke).LiveApp args.AppName = (args.AppName, held) := by
        simp [platformDeployer, hN]
      intro k r hr
      rw [hlive] at hr
      have hr : r ∈ held := hr
      have hsub := live_mem_getNewAppRoutes it args.AppName defaultCfDomain repo held r hr
      have hkeep : ∀ cs : List Call, (∀ c ∈ cs, keepsLive args.AppName defaultCfDomain c) →
          ∃ app, r ∈ (Platform.run p0 cs).routesOf app := fun cs hcs =>
        ⟨args.AppName, mem_routesOf _ _ held r
          ((run_keepsLive p0 args.AppName defaultCfDomain cs hcs).trans hN) hr⟩
      have hA := to_map_keepsLive defaultCfDomain args
        (GetNewAppRoutes it args.AppName defaultCfDomain repo held)
      by_cases hp : promotes (platformDeployer p0 smoke) defaultCfDomain args
      · by_cases hl : ((platformDeployer p0 smoke).LiveApp args.AppName).1 = ""
        · rw [deploy_promote_first it _ defaultCfDomain repo args hp hl, hlive]
          have hshape : preludeCalls defaultCfDomain args ++ unmapTemp defaultCfDomain args ::
              [Call.MapRoutesToApp (args.AppName ++ "-new")
                (GetNewAppRoutes it args.AppName defaultCfDomain repo held),
               Call.RenameApp (args.AppName ++ "-new") args.AppName] =
              ((preludeCalls defaultCfDomain args ++ [unmapTemp defaultCfDomain args]) ++
                [Call.MapRoutesToApp (args.AppName ++ "-new")
                  (GetNewAppRoutes it args.AppName defaultCfDomain repo held)]) ++
                [Call.RenameApp (args.AppName ++ "-new") args.AppName] := by simp
          simp only [hshape]
          rcases take_split _ [Call.RenameApp (args.AppName ++ "-new") args.AppName] k with
            h | ⟨j, hj, h⟩
          · rw [h]
            exact hkeep _ (fun c hc => hA c (List.mem_of_mem_take hc))
          · rw [h]
            obtain ⟨i, rfl⟩ : ∃ i, j = i + 1 := ⟨j - 1, by omega⟩
            rw [List.take_succ_cons, List.take_nil]
            exact ⟨args.AppName, mem_routesOf _ _ _ r
              (run_promote_first p0 defaultCfDomain args _) hsub⟩
        · rw [deploy_promote_live it _ defaultCfDomain repo args hp hl, hlive]
          have hshape : preludeCalls defaultCfDomain args ++ unmapTemp defaultCfDomain args ::
              [Call.MapRoutesToApp (args.AppName ++ "-new")
                (GetNewAppRoutes it args.AppName defaultCfDomain repo held),
               Call.RenameApp args.AppName (args.AppName ++ "-old"),
               Call.RenameApp (args.AppName ++ "-new") args.AppName,
               Call.UnmapRoutesFromApp (args.AppName ++ "-old") held] =
              ((preludeCalls defaultCfDomain args ++ [unmapTemp defaultCfDomain args]) ++
                [Call.MapRoutesToApp (args.AppName ++ "-new")
                  (GetNewAppRoutes it args.AppName defaultCfDomain repo held)]) ++
                [Call.RenameApp args.AppName (args.AppName ++ "-old"),
                 Call.RenameApp (args.AppName ++ "-new") args.AppName,
                 Call.UnmapRoutesFromApp (args.AppName ++ "-old") held] := by simp
          simp only [hshape]
          obtain ⟨h1, h2, h3⟩ := run_promote_live p0 defaultCfDomain args
            (GetNewAppRoutes it args.AppName defaultCfDomain repo held) held held hN
          rcases take_split _ [Call.RenameApp args.AppName (args.AppName ++ "-old"),
              Call.RenameApp (args.AppName ++ "-new") args.AppName,
              Call.UnmapRoutesFromApp (args.AppName ++ "-old") held] k with h | ⟨j, hj, h⟩
          · rw [h]
            exact hkeep _ (fun c hc => hA c (List.mem_of_mem_take hc))
          · rw [h]
            rcases j with _ | _ | _ | j
            · omega
            · exact ⟨args.AppName ++ "-old", mem_routesOf _ _ _ r h1 hr⟩
            · exact ⟨args.AppName, mem_routesOf _ _ _ r h2 hsub⟩
            · simp only [List.take_succ_cons, List.take_nil]
              exact ⟨args.AppName, mem_routesOf _ _ _ r h3 hsub⟩
      · have hf := (not_promotes_iff _ defaultCfDomain args).mp hp
        rw [deploy_rollback it _ defaultCfDomain repo args hf]
        apply hkeep
        intro c hc
        have hc := List.mem_of_mem_take hc
        simp only [List.mem_append, List.mem_cons, List.mem_singleton, List.not_mem_nil,
          or_false] at hc
        rcases hc with hc | hc | hc
        · exact Or.inl (prelude_quiet defaultCfDomain args c hc)
        · exact Or.inl (Or.inr (Or.inr (Or.inr (Or.inr (Or.inl hc)))))
        · exact Or.inl (Or.inr (Or.inr (Or.inr (Or.inr (Or.inr hc)))))
  · intro hp
    obtain ⟨tail, ht⟩ := deploy_promote_map it (platformDeployer p0 smoke) defaultCfDomain
      repo args hp
    refine ⟨_, tail, ht, ?_, ?_⟩
    · intro c hc
      rw [List.mem_append, List.mem_singleton] at hc
      rcases hc with hc | rfl
      · exact (prelude_no_unmap defaultCfDomain args c hc).2.1
      · rfl
    · intro c hc routes e
      subst e
      rw [List.mem_append, List.mem_singleton] at hc
      rcases hc with hc | hc
      · simpa [Call.isUnmapRoutesFromApp] using (prelude_no_unmap defaultCfDomain args _ hc).1
      · simp only [unmapTemp, Call.UnmapRoutesFromApp.injEq] at hc
        exact new_ne_old _ hc.1.symm

theorem live_routes_always_held_witness :
    routeA ∈ ((platformDeployer livePlatform (fun _ _ => true)).LiveApp argsPlain.AppName).2 ∧
    (∃ app, routeA ∈ (Platform.run livePlatform
      ((Deploy MapIteration.insertionOrder (platformDeployer livePlatform (fun _ _ => true))
        "example.com" emptyRepo argsPlain).1.take 6)).routesOf app) ∧
    promotes (platformDeployer livePlatform (fun _ _ => true)) "example.com" argsPlain ∧
    ∃ pre post, (Deploy MapIteration.insertionOrder (platformDeployer livePlatform (fun _ _ => true))
          "example.com" emptyRepo argsPlain).1 =
        pre ++ Call.MapRoutesToApp (argsPlain.AppName ++ "-new")
          (GetNewAppRoutes MapIteration.insertionOrder argsPlain.AppName "example.com" emptyRepo
            ((platformDeployer livePlatform (fun _ _ => true)).LiveApp argsPlain.AppName).2) :: post ∧
      (∀ c ∈ pre, c.isRenameApp = false) ∧
      ∀ c ∈ pre, ∀ routes, c ≠ Call.UnmapRoutesFromApp (argsPlain.AppName ++ "-old") routes :=
  ⟨by decide,
    (live_routes_always_held MapIteration.insertionOrder livePlatform (fun _ _ => true)
      "example.com" emptyRepo argsPlain).1 6 routeA (by decide),
    Or.inl rfl,
    (live_routes_always_held MapIteration.insertionOrder livePlatform (fun _ _ => true)
      "example.com" emptyRepo argsPlain).2.2 (Or.inl rfl)⟩

/-! ## The temporary route and the mapped routes -/

/-- Every `MapRoutesToApp` call of a run carries the reconciled routes. -/
theorem mem_map_call (it : MapIteration) (d : BlueGreenDeployer) (dom : String)
    (repo : Repository) (args : Args) (appName : String) (routes : List Route)
    (hc : Call.MapRoutesToApp appName routes ∈ (Deploy it d dom repo args).1) :
    routes = GetNewAppRoutes it args.AppName dom repo (d.LiveApp args.AppName).2 := by
  have hpre := prelude_no_unmap dom args
  by_cases hp : promotes d dom args
  · obtain ⟨tail, ht⟩ : ∃ tail, (Deploy it d dom repo args).1 =
        preludeCalls dom args ++ unmapTemp dom args ::
          Call.MapRoutesToApp (args.AppName ++ "-new")
            (GetNewAppRoutes it args.AppName dom repo (d.LiveApp args.AppName).2) :: tail ∧
        ∀ c ∈ tail, c.isMapRoutesToApp = false := by
      by_cases hl : (d.LiveApp args.AppName).1 = ""
      · rw [deploy_promote_first it d dom repo args hp hl]
        exact ⟨_, rfl, by simp [Call.isMapRoutesToApp]⟩
      · rw [deploy_promote_live it d dom repo args hp hl]
        exact ⟨_, rfl, by simp [Call.isMapRoutesToApp]⟩
    rw [ht.1] at hc
    simp only [List.mem_append, List.mem_cons] at hc
    rcases hc with hc | hc | hc | hc
    · simpa [Call.isMapRoutesToApp] using (hpre _ hc).2.2
    · exact Call.noConfusion hc
    · simp only [Call.MapRoutesToApp.injEq] at hc
      exact hc.2
    · simpa [Call.isMapRoutesToApp] using ht.2 _ hc
  · have hf := (not_promotes_iff d dom args).mp hp
    rw [deploy_rollback it d dom repo args hf] at hc
    simp only [List.mem_append, List.mem_cons, List.mem_singleton, List.not_mem_nil,
      or_false] at hc
    rcases hc with hc | hc | hc
    · simpa [Call.isMapRoutesToApp] using (hpre _ hc).2.2
    · exact Call.noConfusion hc
    · exact Call.noConfusion hc

theorem temp_not_mem_getNewAppRoutes (it : MapIteration) (appName dom : String)
    (repo : Repository) (liveAppRoutes : List Route)
    (hman : tempRouteOf appName dom ∉ manifestRoutes repo appName dom)
    (hlive : tempRouteOf appName dom ∉ liveAppRoutes) :
    tempRouteOf appName dom ∉ GetNewAppRoutes it appName dom repo liveAppRoutes := by
  rw [getNewAppRoutes_eq]
  split
  · intro h
    rw [List.mem_singleton] at h
    exact new_ne_self appName (congrArg GetApp_RouteSummary.Host h)
  · intro h
    rcases (mem_union _ _ _ _).mp h with h | h
    · exact hman h
    · exact hlive h

/-- The platform state at the end of a run that promotes: the public name holds exactly
the reconciled routes. -/
theorem run_promote_final (it : MapIteration) (p0 : Platform) (smoke : String → String → Bool)
    (dom : String) (repo : Repository) (args : Args)
    (hp : promotes (platformDeployer p0 smoke) dom args) :
    Platform.run p0 (Deploy it (platformDeployer p0 smoke) dom repo args).1 args.AppName =
      some (GetNewAppRoutes it args.AppName dom repo
        ((platformDeployer p0 smoke).LiveApp args.AppName).2) := by
  by_cases hl : ((platformDeployer p0 smoke).LiveApp args.AppName).1 = ""
  · rw [deploy_promote_first it _ dom repo args hp hl]
    have := run_promote_first p0 dom args (GetNewAppRoutes it args.AppName dom repo
      ((platformDeployer p0 smoke).LiveApp args.AppName).2)
    simpa using this
  · rw [deploy_promote_live it _ dom repo args hp hl]
    cases hN : p0 args.AppName with
    | none => simp [platformDeployer, hN] at hl
    | some held =>
      have hlive : (platformDeployer p0 smoke).LiveApp args.AppName = (args.AppName, held) := by
        simp [platformDeployer, hN]
      rw [hlive]
      have := (run_promote_live p0 dom args (GetNewAppRoutes it args.AppName dom repo held)
        held held hN).2.2
      simpa using this

/-- C11, counterexample: when the manifest declares the route `app-new.example.com` for
`app`, the run that promotes `app` passes exactly that route, the temporary route, to
`MapRoutesToApp`. -/
theorem temp_route_mapped_when_declared :
    ¬ (∀ appName routes,
        Call.MapRoutesToApp appName routes ∈
          (Deploy MapIteration.insertionOrder (firstDeployer true) "example.com" repoTemp
            argsPlain).1 →
        tempRouteOf argsPlain.AppName "example.com" ∉ routes) := by
  intro h
  exact h "app-new" [{ Host := "app-new", Domain := { Name := "example.com" } }]
    (by decide) (by decide)

/-- C11, amended: in a run in which the temporary route is neither a manifest route of
the application nor a live route, the temporary route is not among the routes of any
`MapRoutesToApp` call; and over the platform state, at the end of such a run that
promotes, the application holding the public name does not hold the temporary route. -/
theorem temp_route_not_mapped (it : MapIteration) (d : BlueGreenDeployer)
    (defaultCfDomain : String) (repo : Repository) (args : Args)
    (hman : tempRouteOf args.AppName defaultCfDomain ∉
      manifestRoutes repo args.AppName defaultCfDomain)
    (hlive : tempRouteOf args.AppName defaultCfDomain ∉ (d.LiveApp args.AppName).2) :
    (∀ appName routes,
      Call.MapRoutesToApp appName routes ∈ (Deploy it d defaultCfDomain repo args).1 →
        tempRouteOf args.AppName defaultCfDomain ∉ routes) ∧
    (∀ p0 smoke, d = platformDeployer p0 smoke → promotes d defaultCfDomain args →
      tempRouteOf args.AppName defaultCfDomain ∉
        (Platform.run p0 (Deploy it d defaultCfDomain repo args).1).routesOf args.AppName) := by
  have hnot := temp_not_mem_getNewAppRoutes it args.AppName defaultCfDomain repo
    (d.LiveApp args.AppName).2 hman hlive
  constructor
  · intro appName routes hc
    rw [mem_map_call it d defaultCfDomain repo args appName routes hc]
    exact hnot
  · intro p0 smoke hd hp
    subst hd
    rw [routesOf_eq _ _ _ (run_promote_final it p0 smoke defaultCfDomain repo args hp)]
    exact hnot

theorem temp_route_not_mapped_witness :
    tempRouteOf argsPlain.AppName "example.com" ∉
      manifestRoutes repoB argsPlain.AppName "example.com" ∧
    tempRouteOf argsPlain.AppName "example.com" ∉
      ((platformDeployer livePlatform (fun _ _ => true)).LiveApp argsPlain.AppName).2 ∧
    Call.MapRoutesToApp "app-new" [routeB, routeA] ∈
      (Deploy MapIteration.insertionOrder (platformDeployer livePlatform (fun _ _ => true))
        "example.com" repoB argsPlain).1 ∧
    tempRouteOf argsPlain.AppName "example.com" ∉ [routeB, routeA] ∧
    promotes (platformDeployer livePlatform (fun _ _ => true)) "example.com" argsPlain ∧
    tempRouteOf argsPlain.AppName "example.com" ∉
      (Platform.run livePlatform
        (Deploy MapIteration.insertionOrder (platformDeployer livePlatform (fun _ _ => true))
          "example.com" repoB argsPlain).1).routesOf argsPlain.AppName :=
  ⟨by decide, by decide, by decide,
    (temp_route_not_mapped MapIteration.insertionOrder
      (platformDeployer livePlatform (fun _ _ => true)) "example.com" repoB argsPlain
      (by decide) (by decide)).1 "app-new" [routeB, routeA] (by decide),
    Or.inl rfl,
    (temp_route_not_mapped MapIteration.insertionOrder
      (platformDeployer livePlatform (fun _ _ => true)) "example.com" repoB argsPlain
      (by decide) (by decide)).2 livePlatform (fun _ _ => true) rfl (Or.inl rfl)⟩

/-! ## `DefaultCfDomain` and `Run` -/

theorem not_uninstall (args : List String) (h : args.head? ≠ some "CLI-MESSAGE-UNINSTALL") :
    ¬ (args.length > 0 ∧ args.head? = some "CLI-MESSAGE-UNINSTALL") := fun hc => h hc.2

/-- The four ways `Run` goes on after the uninstall check, by the outcome of
`DefaultCfDomain`, the application name and the result of `Deploy`. -/
theorem run_cases (it : MapIteration) (NewArgs : List String → Args)
    (unmarshal : String → Except String SharedDomainsResponse) (repo : Repository)
    (d : BlueGreenDeployer) (connection : CliConnection) (args : List String)
    (hfirst : args.head? ≠ some "CLI-MESSAGE-UNINSTALL") :
    (DefaultCfDomain unmarshal connection = none →
      Run it NewArgs unmarshal repo d connection args =
        { setup := false, calls := [], output := [], termination := Termination.panicked }) ∧
    (∀ dmn err, DefaultCfDomain unmarshal connection = some (dmn, some err) →
      Run it NewArgs unmarshal repo d connection args =
        { setup := false, calls := [], output := ["Failed to get default shared domain"],
          termination := Termination.exited 1 }) ∧
    (∀ dmn, DefaultCfDomain unmarshal connection = some (dmn, none) →
      (NewArgs args).AppName = "" →
      Run it NewArgs unmarshal repo d connection args =
        { setup := true, calls := [], output := ["App name must be provided"],
          termination := Termination.exited 1 }) ∧
    (∀ dmn, DefaultCfDomain unmarshal connection = some (dmn, none) →
      (NewArgs args).AppName ≠ "" →
      Run it NewArgs unmarshal repo d connection args =
        { setup := true, calls := (Deploy it d dmn repo (NewArgs args)).1,
          output := if (Deploy it d dmn repo (NewArgs args)).2 then [] else ["Smoke tests failed"],
          termination := if (Deploy it d dmn repo (NewArgs args)).2 then Termination.returned
            else Termination.exited 1 }) := by
  have hu := not_uninstall args hfirst
  refine ⟨?_, ?_, ?_, ?_⟩
  · intro h
    simp only [Run, hu, if_false, h]
  · intro dmn err h
    simp only [Run, hu, if_false, h]
  · intro dmn h ha
    simp only [Run, hu, if_false, h, ha, if_true]
  · intro dmn h ha
    simp only [Run, hu, if_false, h, ha]
    cases (Deploy it d dmn repo (NewArgs args)).2 <;> simp

/-- For an invocation in which `DefaultCfDomain` returns, `Run` exits with status 1 iff
the returned error is not nil, or the application name is empty, or `Deploy` returns
false, and returns otherwise. -/
theorem run_exit_iff_of_domain_returned (it : MapIteration) (NewArgs : List String → Args)
    (unmarshal : String → Except String SharedDomainsResponse) (repo : Repository)
    (d : BlueGreenDeployer) (connection : CliConnection) (args : List String)
    (dmn : String) (err : Option String)
    (hfirst : args.head? ≠ some "CLI-MESSAGE-UNINSTALL")
    (hdom : DefaultCfDomain unmarshal connection = some (dmn, err)) :
    ((Run it NewArgs unmarshal repo d connection args).termination = Termination.exited 1 ↔
      (err ≠ none ∨ (NewArgs args).AppName = "" ∨
        (Deploy it d dmn repo (NewArgs args)).2 = false)) ∧
    ((Run it NewArgs unmarshal repo d connection args).termination ≠ Termination.exited 1 →
      (Run it NewArgs unmarshal repo d connection args).termination = Termination.returned) := by
  obtain ⟨_, h2, h3, h4⟩ := run_cases it NewArgs unmarshal repo d connection args hfirst
  cases err with
  | some e =>
    rw [h2 dmn e hdom]
    simp
  | none =>
    by_cases ha : (NewArgs args).AppName = ""
    · rw [h3 dmn hdom ha]
      simp [ha]
    · rw [h4 dmn hdom ha]
      cases (Deploy it d dmn repo (NewArgs args)).2 <;> simp [ha]

/-- C18, the failing invocation: with no application name and a shared-domains response
that decodes to an empty `Resources` list, `Run` ends in a run-time panic inside
`DefaultCfDomain`, before the application name is checked; it neither exits with status 1
nor returns. -/
theorem run_panics_without_shared_domain :
    (sampleNewArgs ["blue-green-deploy"]).AppName = "" ∧
    sampleUnmarshal (String.intercalate "\n" ["none"]) = .ok { Resources := [] } ∧
    DefaultCfDomain sampleUnmarshal (sampleConnection "none") = none ∧
    (Run MapIteration.insertionOrder sampleNewArgs sampleUnmarshal emptyRepo (firstDeployer true)
      (sampleConnection "none") ["blue-green-deploy"]).termination = Termination.panicked ∧
    (Run MapIteration.insertionOrder sampleNewArgs sampleUnmarshal emptyRepo (firstDeployer true)
      (sampleConnection "none") ["blue-green-deploy", "app"]).termination = Termination.panicked :=
  ⟨rfl, rfl, rfl, by decide, by decide⟩

/-- C19: when the application name is empty or `DefaultCfDomain` returned an error, `Run`
issues none of the deployer calls of `Deploy` (no cleaning, push, map, unmap or rename),
and, unless it is the uninstall message, the invocation does not return. -/
theorem run_without_deploy (it : MapIteration) (NewArgs : List String → Args)
    (unmarshal : String → Except String SharedDomainsResponse) (repo : Repository)
    (d : BlueGreenDeployer) (connection : CliConnection) (args : List String)
    (h : (NewArgs args).AppName = "" ∨
      ∃ dmn err, DefaultCfDomain unmarshal connection = some (dmn, some err)) :
    (Run it NewArgs unmarshal repo d connection args).calls = [] ∧
    (args.head? ≠ some "CLI-MESSAGE-UNINSTALL" →
      (Run it NewArgs unmarshal repo d connection args).termination ≠ Termination.returned) := by
  by_cases hfirst : args.head? = some "CLI-MESSAGE-UNINSTALL"
  · have hlen : args.length > 0 := by
      cases args with
      | nil => simp at hfirst
      | cons a as => simp
    refine ⟨?_, fun hn => absurd hfirst hn⟩
    simp [Run, hfirst, hlen]
  · obtain ⟨h1, h2, h3, h4⟩ := run_cases it NewArgs unmarshal repo d connection args hfirst
    cases hd : DefaultCfDomain unmarshal connection with
    | none => rw [h1 hd]; exact ⟨rfl, fun _ => by simp⟩
    | some res =>
      obtain ⟨dmn, err⟩ := res
      cases err with
      | some e => rw [h2 dmn e hd]; exact ⟨rfl, fun _ => by simp⟩
      | none =>
        rcases h with ha | ⟨dmn2, e2, he⟩
        · rw [h3 dmn hd ha]; exact ⟨rfl, fun _ => by simp⟩
        · rw [hd] at he
          simp at he

theorem run_without_deploy_witness :
    ((sampleNewArgs ["blue-green-deploy"]).AppName = "" ∨
      ∃ dmn err, DefaultCfDomain sampleUnmarshal (sampleConnection "one") = some (dmn, some err)) ∧
    (Run MapIteration.insertionOrder sampleNewArgs sampleUnmarshal emptyRepo (firstDeployer true)
      (sampleConnection "one") ["blue-green-deploy"]).calls = [] ∧
    (["blue-green-deploy"].head? ≠ some "CLI-MESSAGE-UNINSTALL" ∧
      (Run MapIteration.insertionOrder sampleNewArgs sampleUnmarshal emptyRepo (firstDeployer true)
        (sampleConnection "one") ["blue-green-deploy"]).termination ≠ Termination.returned) :=
  ⟨Or.inl rfl,
    (run_without_deploy MapIteration.insertionOrder sampleNewArgs sampleUnmarshal emptyRepo
      (firstDeployer true) (sampleConnection "one") ["blue-green-deploy"] (Or.inl rfl)).1,
    by decide,
    (run_without_deploy MapIteration.insertionOrder sampleNewArgs sampleUnmarshal emptyRepo
      (firstDeployer true) (sampleConnection "one") ["blue-green-deploy"] (Or.inl rfl)).2
      (by decide)⟩

/-- C20: for a shared-domains response that the connection returns without error and that
decodes, `DefaultCfDomain` returns the name of the first element of `Resources` with a nil
error when `Resources` is not empty; the index `Resources[0]` is out of range exactly when
`Resources` is empty, and then the function returns nothing, in particular no error, and
`Run` ends in a panic instead of the exit it takes on an error. -/
theorem defaultCfDomain_first_resource
    (unmarshal : String → Except String SharedDomainsResponse) (connection : CliConnection)
    (res : List String) (response : SharedDomainsResponse)
    (hconn : connection.CliCommandWithoutTerminalOutput ["curl", "/v2/shared_domains"] = .ok res)
    (hdec : unmarshal (String.intercalate "\n" res) = .ok response) :
    (∀ first rest, response.Resources = first :: rest →
      DefaultCfDomain unmarshal connection = some (first.Entity.Name, none)) ∧
    (DefaultCfDomain unmarshal connection = none ↔ response.Resources = []) ∧
    (response.Resources = [] →
      (∀ dmn err, DefaultCfDomain unmarshal connection ≠ some (dmn, some err)) ∧
      ∀ it NewArgs repo d args, args.head? ≠ some "CLI-MESSAGE-UNINSTALL" →
        (Run it NewArgs unmarshal repo d connection args).termination = Termination.panicked) := by
  have hcons : ∀ first rest, response.Resources = first :: rest →
      DefaultCfDomain unmarshal connection = some (first.Entity.Name, none) := by
    intro first rest h
    simp only [DefaultCfDomain, hconn, hdec, h]
  have hnil : response.Resources = [] → DefaultCfDomain unmarshal connection = none := by
    intro h
    simp only [DefaultCfDomain, hconn, hdec, h]
  refine ⟨hcons, ⟨?_, hnil⟩, ?_⟩
  · intro h
    cases hr : response.Resources with
    | nil => rfl
    | cons first rest =>
      rw [hcons first rest hr] at h
      exact Option.noConfusion h
  · intro h
    refine ⟨fun dmn err e => ?_, ?_⟩
    · rw [hnil h] at e
      exact Option.noConfusion e
    · intro it NewArgs repo d args hfirst
      rw [(run_cases it NewArgs unmarshal repo d connection args hfirst).1 (hnil h)]

theorem defaultCfDomain_first_resource_witness :
    (sampleConnection "one").CliCommandWithoutTerminalOutput ["curl", "/v2/shared_domains"] =
      .ok ["one"] ∧
    sampleUnmarshal (String.intercalate "\n" ["one"]) =
      .ok { Resources := [{ Entity := { Name := "example.com" } }] } ∧
    DefaultCfDomain sampleUnmarshal (sampleConnection "one") = some ("example.com", none) ∧
    sampleUnmarshal (String.intercalate "\n" ["none"]) = .ok { Resources := [] } ∧
    (Run MapIteration.insertionOrder sampleNewArgs sampleUnmarshal emptyRepo (firstDeployer true)
      (sampleConnection "none") ["blue-green-deploy", "app"]).termination = Termination.panicked :=
  ⟨rfl, rfl,
    (defaultCfDomain_first_resource sampleUnmarshal (sampleConnection "one") ["one"]
      { Resources := [{ Entity := { Name := "example.com" } }] } rfl rfl).1
      { Entity := { Name := "example.com" } } [] rfl,
    rfl,
    ((defaultCfDomain_first_resource sampleUnmarshal (sampleConnection "none") ["none"]
      { Resources := [] } rfl rfl).2.2 rfl).2 MapIteration.insertionOrder sampleNewArgs emptyRepo
      (firstDeployer true) ["blue-green-deploy", "app"] (by decide)⟩

end BlueGreen
